import Mathlib

/-!
Kanban task board (`src/index.js`): board projection, view synchronisation, modal workflow.

A shallow embedding of `src/index.js`.  JavaScript strings are sequences of
UTF-16 code units, `localStorage` is a map from keys to text, `JSON.parse` and
`JSON.stringify` follow ECMA-404 / ECMA-262, and the DOM is reduced to the parts
the handlers read and write (board buttons, status columns, the two modals, the
overlay and the two forms).
-/

namespace TaskBoard

set_option maxRecDepth 100000

/-! ## JavaScript strings and JSON values -/

/-- A JavaScript string: its UTF-16 code units, each below `2^16`. -/
abbrev JsString := List Nat

/-- UTF-16 encoding of a Lean string, used to write JavaScript string literals. -/
def utf16 (s : String) : JsString :=
  s.toList.flatMap fun c =>
    if c.toNat < 0x10000 then [c.toNat]
    else [0xD800 + (c.toNat - 0x10000) / 0x400, 0xDC00 + (c.toNat - 0x10000) % 0x400]

/-- The values `JSON.parse` can return.  A number keeps the decimal it was written as:
`num neg mant exp` is `(-1)^neg * mant * 10^exp`. -/
inductive JsVal where
  | null
  | bool (b : Bool)
  | num (neg : Bool) (mant : Nat) (exp : Int)
  | str (s : JsString)
  | arr (items : List JsVal)
  | obj (members : List (JsString × JsVal))

/-- Errors a handler can throw: the `SyntaxError` of `JSON.parse`, the `TypeError` of a
failed conversion to a string, and the `SyntaxError` `DOMException` of `querySelector`. -/
inductive JsError where
  | syntaxError
  | typeError
  | invalidSelector
  deriving DecidableEq, Repr

/-- `ToBoolean` on a parsed value.  A number is falsy exactly when it is `0` as a double:
all digits zero, or a magnitude of at most `2^-1075`, which rounds to zero. -/
def JsVal.truthy : JsVal → Bool
  | .null => false
  | .bool b => b
  | .num _ mant exp =>
    if mant = 0 then false
    else if 0 ≤ exp then true
    else decide (10 ^ (-exp).toNat < mant * 2 ^ 1075)
  | .str s => !s.isEmpty
  | .arr _ => true
  | .obj _ => true

/-- Whether a parsed object has a member with the given name. -/
def membersHaveKey (key : JsString) : List (JsString × JsVal) → Bool
  | [] => false
  | member :: members => member.1 == key || membersHaveKey key members

mutual

/-- Whether `ToString` returns on a parsed value instead of throwing a `TypeError`.  A parsed
object is converted by `Object.prototype.toString` unless it has a member named `toString`:
that member is no function, and `valueOf` gives no primitive either.  A parsed array is
converted by `join`, which converts every element that is not `null`. -/
def JsVal.toStringReturns : JsVal → Bool
  | .null => true
  | .bool _ => true
  | .num _ _ _ => true
  | .str _ => true
  | .arr items => allToStringReturn items
  | .obj members => !membersHaveKey (utf16 "toString") members

/-- Whether `ToString` returns on every element of an array. -/
def allToStringReturn : List JsVal → Bool
  | [] => true
  | item :: items => item.toStringReturns && allToStringReturn items

end

/-! ### `JSON.stringify` on a string (QuoteJSONString) -/

def hexDigit (n : Nat) : Nat := if n < 10 then 0x30 + n else 0x61 + (n - 10)

/-- `\uXXXX` with lower-case hexadecimal digits. -/
def unicodeEscape (c : Nat) : JsString :=
  [0x5C, 0x75, hexDigit (c / 4096 % 16), hexDigit (c / 256 % 16), hexDigit (c / 16 % 16),
    hexDigit (c % 16)]

def isHighSurrogate (c : Nat) : Bool := decide (0xD800 ≤ c ∧ c ≤ 0xDBFF)

def isLowSurrogate (c : Nat) : Bool := decide (0xDC00 ≤ c ∧ c ≤ 0xDFFF)

/-- One code unit that is not part of a surrogate pair: the two-character escapes,
`\uXXXX` for the other control characters and for a lone surrogate, otherwise itself. -/
def quoteUnit (c : Nat) : JsString :=
  if c = 0x08 then [0x5C, 0x62]
  else if c = 0x09 then [0x5C, 0x74]
  else if c = 0x0A then [0x5C, 0x6E]
  else if c = 0x0C then [0x5C, 0x66]
  else if c = 0x0D then [0x5C, 0x72]
  else if c = 0x22 then [0x5C, 0x22]
  else if c = 0x5C then [0x5C, 0x5C]
  else if c < 0x20 ∨ isHighSurrogate c ∨ isLowSurrogate c then unicodeEscape c
  else [c]

/-- The characters between the quotes: a surrogate pair is copied, every other code unit
goes through `quoteUnit`. -/
def quoteBody : JsString → JsString
  | [] => []
  | [c] => quoteUnit c
  | c :: d :: rest =>
    if isHighSurrogate c ∧ isLowSurrogate d then c :: d :: quoteBody rest
    else quoteUnit c ++ quoteBody (d :: rest)

/-- `JSON.stringify(s)` for a string `s`. -/
def jsonStringify (s : JsString) : JsString := 0x22 :: (quoteBody s ++ [0x22])

/-! ### `JSON.parse` -/

def isWhitespace (c : Nat) : Bool := c = 0x20 || c = 0x09 || c = 0x0A || c = 0x0D

def skipWhitespace : List Nat → List Nat
  | [] => []
  | c :: cs => if isWhitespace c then skipWhitespace cs else c :: cs

def digitVal (c : Nat) : Option Nat :=
  if 0x30 ≤ c ∧ c ≤ 0x39 then some (c - 0x30) else none

def hexVal (c : Nat) : Option Nat :=
  if 0x30 ≤ c ∧ c ≤ 0x39 then some (c - 0x30)
  else if 0x61 ≤ c ∧ c ≤ 0x66 then some (c - 0x61 + 10)
  else if 0x41 ≤ c ∧ c ≤ 0x46 then some (c - 0x41 + 10)
  else none

/-- The character a two-character escape `\e` stands for. -/
def unescape (e : Nat) : Option Nat :=
  if e = 0x22 then some 0x22
  else if e = 0x5C then some 0x5C
  else if e = 0x2F then some 0x2F
  else if e = 0x62 then some 0x08
  else if e = 0x66 then some 0x0C
  else if e = 0x6E then some 0x0A
  else if e = 0x72 then some 0x0D
  else if e = 0x74 then some 0x09
  else none

/-- A string literal after its opening quote: the string and what follows the closing
quote.  Unescaped control characters and unknown escapes are syntax errors. -/
def parseStringBody : List Nat → Option (JsString × List Nat)
  | [] => none
  | c :: rest =>
    if c = 0x22 then some ([], rest)
    else if c = 0x5C then
      match rest with
      | [] => none
      | e :: rest2 =>
        if e = 0x75 then
          match rest2 with
          | h1 :: h2 :: h3 :: h4 :: rest3 =>
            match hexVal h1, hexVal h2, hexVal h3, hexVal h4 with
            | some a, some b, some c3, some d =>
              (parseStringBody rest3).map fun p => ((4096 * a + 256 * b + 16 * c3 + d) :: p.1, p.2)
            | _, _, _, _ => none
          | _ => none
        else
          match unescape e with
          | some u => (parseStringBody rest2).map fun p => (u :: p.1, p.2)
          | none => none
    else if c < 0x20 then none
    else (parseStringBody rest).map fun p => (c :: p.1, p.2)

/-- The longest run of decimal digits: their value read as one numeral, how many there
are, and the rest. -/
def takeDigits : Nat → Nat → List Nat → Nat × Nat × List Nat
  | acc, n, [] => (acc, n, [])
  | acc, n, c :: cs =>
    match digitVal c with
    | some d => takeDigits (10 * acc + d) (n + 1) cs
    | none => (acc, n, c :: cs)

/-- The integer part of a number: `0`, or a non-zero digit followed by digits. -/
def parseInt : List Nat → Option (Nat × List Nat)
  | [] => none
  | c :: cs =>
    if c = 0x30 then some (0, cs)
    else
      match digitVal c with
      | some d => let r := takeDigits d 1 cs; some (r.1, r.2.2)
      | none => none

/-- An optional fraction `.digits`: the mantissa extended by the digits and their count. -/
def parseFrac (mant : Nat) : List Nat → Option (Nat × Nat × List Nat)
  | [] => some (mant, 0, [])
  | c :: cs =>
    if c = 0x2E then
      let r := takeDigits mant 0 cs
      if r.2.1 = 0 then none else some r
    else some (mant, 0, c :: cs)

/-- An optional exponent `e`/`E`, sign, digits. -/
def parseExp : List Nat → Option (Int × List Nat)
  | [] => some (0, [])
  | c :: cs =>
    if c = 0x65 ∨ c = 0x45 then
      match cs with
      | [] => none
      | s :: cs2 =>
        if s = 0x2D then
          let r := takeDigits 0 0 cs2
          if r.2.1 = 0 then none else some (-(r.1 : Int), r.2.2)
        else if s = 0x2B then
          let r := takeDigits 0 0 cs2
          if r.2.1 = 0 then none else some ((r.1 : Int), r.2.2)
        else
          let r := takeDigits 0 0 (s :: cs2)
          if r.2.1 = 0 then none else some ((r.1 : Int), r.2.2)
    else some (0, c :: cs)

/-- A number literal after its optional minus sign. -/
def parseUnsigned (neg : Bool) (cs : List Nat) : Option (JsVal × List Nat) :=
  match parseInt cs with
  | none => none
  | some (i, r1) =>
    match parseFrac i r1 with
    | none => none
    | some (mant, nfrac, r2) =>
      match parseExp r2 with
      | none => none
      | some (e, r3) => some (.num neg mant (e - (nfrac : Int)), r3)

def parseNumber : List Nat → Option (JsVal × List Nat)
  | [] => none
  | c :: cs => if c = 0x2D then parseUnsigned true cs else parseUnsigned false (c :: cs)

/-- Drops the given literal text from the front of the input. -/
def expectLit : List Nat → List Nat → Option (List Nat)
  | [], cs => some cs
  | _ :: _, [] => none
  | l :: ls, c :: cs => if l = c then expectLit ls cs else none

mutual

/-- A JSON value starting at the first character of the input. -/
def parseValue : Nat → List Nat → Option (JsVal × List Nat)
  | 0, _ => none
  | _, [] => none
  | fuel + 1, c :: rest =>
    if c = 0x22 then (parseStringBody rest).map fun p => (JsVal.str p.1, p.2)
    else if c = 0x5B then
      match skipWhitespace rest with
      | [] => none
      | d :: r => if d = 0x5D then some (JsVal.arr [], r)
                  else (parseElements fuel (d :: r)).map fun p => (JsVal.arr p.1, p.2)
    else if c = 0x7B then
      match skipWhitespace rest with
      | [] => none
      | d :: r => if d = 0x7D then some (JsVal.obj [], r)
                  else (parseMembers fuel (d :: r)).map fun p => (JsVal.obj p.1, p.2)
    else if c = 0x6E then (expectLit [0x75, 0x6C, 0x6C] rest).map fun r => (JsVal.null, r)
    else if c = 0x74 then (expectLit [0x72, 0x75, 0x65] rest).map fun r => (JsVal.bool true, r)
    else if c = 0x66 then
      (expectLit [0x61, 0x6C, 0x73, 0x65] rest).map fun r => (JsVal.bool false, r)
    else parseNumber (c :: rest)

/-- The elements of a non-empty array up to and including the closing bracket. -/
def parseElements : Nat → List Nat → Option (List JsVal × List Nat)
  | 0, _ => none
  | fuel + 1, cs =>
    match parseValue fuel cs with
    | none => none
    | some (v, r) =>
      match skipWhitespace r with
      | [] => none
      | d :: r2 =>
        if d = 0x2C then (parseElements fuel (skipWhitespace r2)).map fun p => (v :: p.1, p.2)
        else if d = 0x5D then some ([v], r2)
        else none

/-- The members of a non-empty object up to and including the closing brace. -/
def parseMembers : Nat → List Nat → Option (List (JsString × JsVal) × List Nat)
  | 0, _ => none
  | _, [] => none
  | fuel + 1, c :: rest =>
    if c = 0x22 then
      match parseStringBody rest with
      | none => none
      | some (key, r) =>
        match skipWhitespace r with
        | [] => none
        | d :: r2 =>
          if d = 0x3A then
            match parseValue fuel (skipWhitespace r2) with
            | none => none
            | some (v, r3) =>
              match skipWhitespace r3 with
              | [] => none
              | e :: r4 =>
                if e = 0x2C then
                  (parseMembers fuel (skipWhitespace r4)).map fun p => ((key, v) :: p.1, p.2)
                else if e = 0x7D then some ([(key, v)], r4)
                else none
          else none
    else none

end

/-- `JSON.parse(text)`: the value, or a `SyntaxError` when the text is not one JSON value
surrounded by optional whitespace.  Every recursive call is made after at most two nested
calls have consumed a character, so twice the length is enough fuel. -/
def jsonParse (text : JsString) : Except JsError JsVal :=
  match parseValue (2 * text.length + 2) (skipWhitespace text) with
  | none => .error .syntaxError
  | some (v, rest) => if skipWhitespace rest = [] then .ok v else .error .syntaxError

/-! ## Data model -/

/-- A task as `getTasks()` returns it.  `board` is `none` when the object has no `board`
property. -/
structure Task where
  id : Nat
  title : JsString
  description : JsString
  status : JsString
  board : Option JsString
  deriving DecidableEq, Repr

/-- The object literal `addTask` passes to `createNewTask`. -/
structure TaskDraft where
  id : Nat
  title : JsString
  description : JsString
  status : JsString
  board : JsVal

/-- The object literal `saveTaskChanges` passes to `patchTask`. -/
structure TaskUpdate where
  title : JsString
  description : JsString
  status : JsString
  board : JsVal

/-- `localStorage`: the text stored under each key, `none` where `getItem` returns `null`. -/
abbrev Store := String → Option JsString

def Store.getItem (st : Store) (key : String) : Option JsString := st key

def Store.setItem (st : Store) (key : String) (value : JsString) : Store :=
  fun k => if k = key then some value else st k

/-- The functions imported from `./utils/taskFunctions.js`, each acting on `localStorage`
and each returning to its caller.  `createNewTask` returns `none` for a falsy result; the
results of `patchTask` and `deleteTask` are not used by `index.js`. -/
structure Repo where
  getTasks : Store → List Task
  createNewTask : Store → TaskDraft → Store × Option Task
  patchTask : Store → Nat → TaskUpdate → Store
  deleteTask : Store → Nat → Store

/-- A call into `./utils/taskFunctions.js`. -/
inductive Call where
  | getTasks
  | createNewTask (task : TaskDraft)
  | patchTask (id : Nat) (updates : TaskUpdate)
  | deleteTask (id : Nat)

/-- The inline `style.display` of an element; `stylesheet` while no handler has set it. -/
inductive Display where
  | stylesheet
  | block
  | flex
  | none
  deriving DecidableEq, Repr

/-- A `.task-div`: its text, its `data-task-id`, and the task its click listener opens in
the edit modal (`addTaskToUI` attaches no listener). -/
structure TaskElement where
  textContent : JsString
  dataTaskId : Nat
  onClick : Option Task
  deriving DecidableEq, Repr

/-- A `.column-div`: its `data-status` and the children of its `.tasks-container`, `none`
while it has no such container. -/
structure Column where
  status : JsString
  tasksContainer : Option (List TaskElement)
  deriving DecidableEq, Repr

/-- A `.board-btn` in the navigation: its text and whether it has the class `active`. -/
structure BoardButton where
  textContent : JsString
  active : Bool
  deriving DecidableEq, Repr

/-- The three inputs of a modal form. -/
structure Form where
  title : JsString
  description : JsString
  status : JsString
  deriving DecidableEq, Repr

/-- The page: `localStorage`, the module variable `activeBoard`, the DOM parts the handlers
use, and the calls made so far into `./utils/taskFunctions.js`.  `addForm` holds the values
of `title-input`, `desc-input` and `edit-status-select`, `addFormDefault` the values
`reset()` restores, `editForm` the values of `edit-task-title-input`, `edit-task-desc-input`
and `edit-select-status`; the two `onclick` fields hold the `task.id` captured by the
handler assigned last.  All elements the handlers look up by id exist, every column has a
`data-status`, and `localStorage` accepts every write. -/
structure State where
  localStorage : Store
  activeBoard : JsVal
  headerBoardName : JsVal
  boardButtons : List BoardButton
  columns : List Column
  modalWindow : Display
  editTaskModal : Display
  filterDiv : Display
  sideBar : Display
  showSideBarBtn : Display
  hideSideBarBtn : Display
  lightTheme : Bool
  addForm : Form
  addFormDefault : Form
  editForm : Form
  saveChangesOnclick : Option Nat
  deleteTaskOnclick : Option Nat
  calls : List Call

/-- A handler stopped by an uncaught error: the error and the page as it was left. -/
structure Thrown where
  error : JsError
  state : State

/-! ## `initializeData` -/

/-- `!localStorage.getItem(key)`: the key is absent or holds the empty text. -/
def Store.missing (st : Store) (key : String) : Bool :=
  match st.getItem key with
  | Option.none => true
  | some text => text.isEmpty

/-- `initializeData()`; `seed` is the text `JSON.stringify(initialData)` of the dataset
imported from `./initialData.js`.  The store accepts every read and write, so the `catch`
branch is never taken. -/
def initializeData (seed : JsString) (st : Store) : Store :=
  if st.missing "tasks" then
    (st.setItem "tasks" seed).setItem "showSideBar" (utf16 "true")
  else st

/-! ## Board projection and the view -/

/-- `.filter(Boolean)` on board values: drops absent and empty ones. -/
def filterBoolean (values : List (Option JsString)) : List JsString :=
  values.filterMap fun v =>
    match v with
    | some s => if s.isEmpty then Option.none else some s
    | Option.none => Option.none

/-- `[...new Set(values)]`: the values in insertion order, each kept where it first
occurs. -/
def setSpread (values : List JsString) : List JsString :=
  values.foldl (fun seen v => if v ∈ seen then seen else seen ++ [v]) []

/-- The position at which a value first occurs in a list (the length when it does not). -/
def firstIndex {α : Type} [DecidableEq α] (a : α) : List α → Nat
  | [] => 0
  | x :: xs => if x = a then 0 else firstIndex a xs + 1

/-- The `boards` array of `fetchAndDisplayBoardsAndTasks`. -/
def boardsOf (tasks : List Task) : List JsString :=
  setSpread (filterBoolean (tasks.map fun task => task.board))

/-- `task.board === boardName`. -/
def boardIs (board : Option JsString) (boardName : JsVal) : Bool :=
  match board, boardName with
  | some b, JsVal.str name => b == name
  | _, _ => false

/-- `btn.textContent === boardName`. -/
def textIs (text : JsString) (boardName : JsVal) : Bool :=
  match boardName with
  | JsVal.str name => text == name
  | _ => false

/-- The `.task-div` built for a task in `filterAndDisplayTasksByBoard`. -/
def taskElement (task : Task) : TaskElement :=
  { textContent := task.title, dataTaskId := task.id, onClick := some task }

/-- What `filterAndDisplayTasksByBoard` puts into the column with the given status. -/
def columnTasks (tasks : List Task) (boardName : JsVal) (status : JsString) : List Task :=
  (tasks.filter fun task => boardIs task.board boardName).filter fun task =>
    task.status == status

/-- The tasks whose elements a column shows, read off the click listeners. -/
def shownTasks (column : Column) : List Task :=
  (column.tasksContainer.getD []).filterMap fun el => el.onClick

/-- `displayBoards(boards)`: the navigation is cleared and gets one button per board. -/
def displayBoards (boards : List JsString) (s : State) : State :=
  { s with boardButtons := boards.map fun board => { textContent := board, active := false } }

/-- The `elements.columnDivs.forEach` of `filterAndDisplayTasksByBoard`: every column is
reset to its head and a fresh `.tasks-container` holding one element per task placed. -/
def rebuildColumns (tasks : List Task) (boardName : JsVal) (columns : List Column) :
    List Column :=
  columns.map fun column =>
    { column with
      tasksContainer := some ((columnTasks tasks boardName column.status).map taskElement) }

/-- `filterAndDisplayTasksByBoard(boardName)`. -/
def filterAndDisplayTasksByBoard (R : Repo) (boardName : JsVal) (s : State) : State :=
  let tasks := R.getTasks s.localStorage
  { s with
    calls := s.calls ++ [Call.getTasks]
    columns := rebuildColumns tasks boardName s.columns }

/-- `refreshTasksUI()`. -/
def refreshTasksUI (R : Repo) (s : State) : State :=
  filterAndDisplayTasksByBoard R s.activeBoard s

/-- `styleActiveBoard(boardName)`. -/
def styleActiveBoard (boardName : JsVal) (s : State) : State :=
  { s with boardButtons := s.boardButtons.map fun btn =>
      { btn with active := textIs btn.textContent boardName } }

/-- `JSON.parse(localStorage.getItem("activeBoard"))`; an absent key gives `null`, which
`JSON.parse` reads as the text `null`. -/
def parseActiveBoard (st : Store) : Except JsError JsVal :=
  match st.getItem "activeBoard" with
  | Option.none => jsonParse (utf16 "null")
  | some text => jsonParse text

/-- The active board chosen on load from the parsed preference and the first board. -/
def chooseActiveBoard (localStorageBoard : JsVal) (first : JsString) : JsVal :=
  if localStorageBoard.truthy then localStorageBoard else JsVal.str first

/-- `fetchAndDisplayBoardsAndTasks()`.  `JSON.parse` throws a `SyntaxError` on text that is
not JSON; the assignment to `headerBoardName.textContent` converts `activeBoard` to a
string and throws a `TypeError` when that conversion fails, after `activeBoard` was set. -/
def fetchAndDisplayBoardsAndTasks (R : Repo) (s : State) : Except Thrown State :=
  let tasks := R.getTasks s.localStorage
  let boards := boardsOf tasks
  let s1 := displayBoards boards { s with calls := s.calls ++ [Call.getTasks] }
  match boards with
  | [] => .ok s1
  | first :: _ =>
    match parseActiveBoard s1.localStorage with
    | .error e => .error { error := e, state := s1 }
    | .ok localStorageBoard =>
      let active := chooseActiveBoard localStorageBoard first
      let s2 := { s1 with activeBoard := active }
      if active.toStringReturns then
        let s3 := { s2 with headerBoardName := active }
        .ok (refreshTasksUI R (styleActiveBoard active s3))
      else .error { error := JsError.typeError, state := s2 }

/-- The click listener `displayBoards` attaches to the button of `board`. -/
def boardButtonClick (R : Repo) (board : JsString) (s : State) : State :=
  let s1 := filterAndDisplayTasksByBoard R (JsVal.str board)
    { s with headerBoardName := JsVal.str board }
  let s2 := { s1 with activeBoard := JsVal.str board }
  let s3 := { s2 with localStorage := s2.localStorage.setItem "activeBoard" (jsonStringify board) }
  styleActiveBoard (JsVal.str board) s3

/-! ## Modals -/

/-- Where the `.task-div` of `addTaskToUI` goes: into the `.tasks-container` of the column
at a position (made when the column has none), into an element outside the columns, or
nowhere when `querySelector` finds no element. -/
inductive Placement where
  | column (index : Nat)
  | outside
  | nowhere
  deriving DecidableEq, Repr

/-- What `document.querySelector` and the append do for a status whose selector text this
development does not decide: it depends on the rest of the document and on the selector
grammar of the browser. -/
abbrev SelectorOracle := JsString → List Column → Except JsError Placement

/-- A code unit that stands for itself inside a double-quoted CSS string: no quote, no
backslash, no line break, no NUL and no surrogate. -/
def plainInSelector (c : Nat) : Bool :=
  c != 0x22 && c != 0x5C && c != 0x0A && c != 0x0D && c != 0x0C && c != 0
    && !isHighSurrogate c && !isLowSurrogate c

def cssWhitespace (c : Nat) : Bool :=
  c == 0x20 || c == 0x09 || c == 0x0A || c == 0x0D || c == 0x0C

/-- An ASCII letter that does not start an attribute-selector modifier (`i`, `s`). -/
def letterOtherThanModifier (c : Nat) : Bool :=
  ((0x41 ≤ c && c ≤ 0x5A) || (0x61 ≤ c && c ≤ 0x7A))
    && c != 0x69 && c != 0x49 && c != 0x73 && c != 0x53

/-- The position of the first column whose `data-status` is the given text. -/
def firstColumnWith (status : JsString) : List Column → Option Nat
  | [] => Option.none
  | column :: rest =>
    if column.status = status then some 0
    else (firstColumnWith status rest).map fun i => i + 1

/-- `document.querySelector` on the text `.column-div[data-status="STATUS"]` built from a
status.  With only plain characters the text is a valid selector and finds the first column
with that status.  A line break ends the string badly, and a quote followed by a letter
other than `i` and `s` leaves a word after the attribute value where only a modifier or the
closing bracket may stand: both are invalid selectors and `querySelector` throws.  Every
other status is left to the oracle. -/
def querySelectorColumn (oracle : SelectorOracle) (status : JsString) (columns : List Column) :
    Except JsError Placement :=
  match status.dropWhile plainInSelector with
  | [] =>
    match firstColumnWith status columns with
    | some i => .ok (Placement.column i)
    | Option.none => .ok Placement.nowhere
  | c :: rest =>
    if c = 0x0A ∨ c = 0x0D ∨ c = 0x0C then .error JsError.invalidSelector
    else if c = 0x22 then
      match rest.dropWhile cssWhitespace with
      | [] => oracle status columns
      | d :: _ =>
        if letterOtherThanModifier d then .error JsError.invalidSelector
        else oracle status columns
    else oracle status columns

/-- Appends a `.task-div` for the task, without a click listener, to the column at the
given position; the column gets a `.tasks-container` when it has none. -/
def appendToColumn (task : Task) : Nat → List Column → List Column
  | _, [] => []
  | 0, column :: rest =>
    { column with
      tasksContainer := some (column.tasksContainer.getD [] ++
        [{ textContent := task.title, dataTaskId := task.id, onClick := Option.none }]) } :: rest
  | i + 1, column :: rest => column :: appendToColumn task i rest

/-- The columns once the new `.task-div` is placed. -/
def placeTask (task : Task) : Placement → List Column → List Column
  | Placement.column i, columns => appendToColumn task i columns
  | Placement.outside, columns => columns
  | Placement.nowhere, columns => columns

/-- `addTaskToUI(task)`: stops with the error of `querySelector` when the selector built
from `task.status` is invalid. -/
def addTaskToUI (oracle : SelectorOracle) (task : Task) (s : State) : Except Thrown State :=
  match querySelectorColumn oracle task.status s.columns with
  | .error e => .error { error := e, state := s }
  | .ok placement => .ok { s with columns := placeTask task placement s.columns }

/-- The object literal `addTask` builds from the add form; `now` is `Date.now()`. -/
def addTaskDraft (now : Nat) (s : State) : TaskDraft :=
  { id := now, title := s.addForm.title, description := s.addForm.description,
    status := s.addForm.status, board := s.activeBoard }

/-- `addTask(event)`; `now` is `Date.now()`.  An error thrown in `addTaskToUI` ends the
handler before the modal is closed. -/
def addTask (R : Repo) (oracle : SelectorOracle) (now : Nat) (s : State) :
    Except Thrown State :=
  let task : TaskDraft := addTaskDraft now s
  let result := R.createNewTask s.localStorage task
  let s1 := { s with localStorage := result.1, calls := s.calls ++ [Call.createNewTask task] }
  match result.2 with
  | some newTask =>
    match addTaskToUI oracle newTask s1 with
    | .error thrown => .error thrown
    | .ok s2 =>
      let s3 := { s2 with modalWindow := Display.none, filterDiv := Display.none,
                          addForm := s2.addFormDefault }
      .ok (refreshTasksUI R s3)
  | Option.none => .ok s1

/-- `openEditTaskModal(task)`. -/
def openEditTaskModal (task : Task) (s : State) : State :=
  { s with
    editForm := { title := task.title, description := task.description, status := task.status }
    saveChangesOnclick := some task.id
    deleteTaskOnclick := some task.id
    editTaskModal := Display.block }

/-- The object literal `saveTaskChanges` builds from the edit form. -/
def updatedTaskOf (s : State) : TaskUpdate :=
  { title := s.editForm.title, description := s.editForm.description,
    status := s.editForm.status, board := s.activeBoard }

/-- `saveTaskChanges(taskId)`. -/
def saveTaskChanges (R : Repo) (taskId : Nat) (s : State) : State :=
  let updatedTask : TaskUpdate := updatedTaskOf s
  let s1 := { s with localStorage := R.patchTask s.localStorage taskId updatedTask,
                     calls := s.calls ++ [Call.patchTask taskId updatedTask] }
  refreshTasksUI R { s1 with editTaskModal := Display.none }

/-- The `onclick` that `openEditTaskModal` gives the delete button. -/
def deleteTaskClick (R : Repo) (taskId : Nat) (s : State) : State :=
  let s1 := { s with localStorage := R.deleteTask s.localStorage taskId,
                     calls := s.calls ++ [Call.deleteTask taskId] }
  refreshTasksUI R { s1 with editTaskModal := Display.none }

/-- A click on the save button: runs the `onclick` installed last, if any. -/
def saveChangesClick (R : Repo) (s : State) : State :=
  match s.saveChangesOnclick with
  | some taskId => saveTaskChanges R taskId s
  | Option.none => s

/-- A click on the delete button: runs the `onclick` installed last, if any. -/
def deleteButtonClick (R : Repo) (s : State) : State :=
  match s.deleteTaskOnclick with
  | some taskId => deleteTaskClick R taskId s
  | Option.none => s

/-- `toggleSidebar(show)`. -/
def toggleSidebar (visible : Bool) (s : State) : State :=
  { s with
    sideBar := if visible then Display.block else Display.none
    showSideBarBtn := if visible then Display.none else Display.block
    hideSideBarBtn := if visible then Display.flex else Display.none
    localStorage := s.localStorage.setItem "showSideBar"
      (if visible then utf16 "true" else utf16 "false") }

/-- `toggleTheme()`. -/
def toggleTheme (s : State) : State :=
  { s with
    lightTheme := !s.lightTheme
    localStorage := s.localStorage.setItem "light-theme"
      (if !s.lightTheme then utf16 "enabled" else utf16 "disabled") }

/-! ## Commands -/

/-- The user actions the listeners of `setupEventListeners`, `displayBoards`,
`filterAndDisplayTasksByBoard` and `openEditTaskModal` react to. -/
inductive Command where
  | selectBoard (board : JsString)
  | openAdd
  | typeAdd (form : Form)
  | submitAdd (now : Nat)
  | cancelAdd
  | clickOverlay
  | openEdit (task : Task)
  | typeEdit (form : Form)
  | saveEdit
  | deleteEdit
  | cancelEdit
  | hideSidebar
  | showSidebar
  | switchTheme

/-- One command: the page it completes with, or the error that stopped its handler.  A
board button or a task element can only be clicked when it is on the page. -/
def step (R : Repo) (oracle : SelectorOracle) (s : State) : Command → Except Thrown State
  | .selectBoard board =>
    if board ∈ s.boardButtons.map (fun btn => btn.textContent) then
      .ok (boardButtonClick R board s)
    else .ok s
  | .openAdd => .ok { s with modalWindow := Display.block, filterDiv := Display.block }
  | .typeAdd form => .ok { s with addForm := form }
  | .submitAdd now => addTask R oracle now s
  | .cancelAdd => .ok { s with modalWindow := Display.none, filterDiv := Display.none }
  | .clickOverlay => .ok { s with modalWindow := Display.none, filterDiv := Display.none }
  | .openEdit task =>
    if s.columns.any (fun column =>
        (column.tasksContainer.getD []).any fun el => el.onClick == some task) then
      .ok (openEditTaskModal task s)
    else .ok s
  | .typeEdit form => .ok { s with editForm := form }
  | .saveEdit => .ok (saveChangesClick R s)
  | .deleteEdit => .ok (deleteButtonClick R s)
  | .cancelEdit => .ok { s with editTaskModal := Display.none }
  | .hideSidebar => .ok (toggleSidebar false s)
  | .showSidebar => .ok (toggleSidebar true s)
  | .switchTheme => .ok (toggleTheme s)

def Call.isGetTasks : Call → Bool
  | .getTasks => true
  | _ => false

def Call.isCreateNewTask : Call → Bool
  | .createNewTask _ => true
  | _ => false

/-- View/store agreement: the task elements every column shows are exactly those of the
stored tasks of the active board with the column's status, in stored order. -/
def ViewAgrees (R : Repo) (s : State) : Prop :=
  ∀ column ∈ s.columns,
    column.tasksContainer.getD []
      = (columnTasks (R.getTasks s.localStorage) s.activeBoard column.status).map taskElement

instance (R : Repo) (s : State) : Decidable (ViewAgrees R s) := by
  unfold ViewAgrees
  infer_instance

/-! ## The task repository of the specification -/

/-- Modelled from the spec: the decimal text of a task id in the serialized collection
(§6, "JSON array of Task objects"); `./utils/taskFunctions.js` is not among the sources. -/
def encodeNat (n : Nat) : JsString := (Nat.toDigits 10 n).map Char.toNat

/-- Modelled from the spec: one Task object of the serialized collection with the fields
`id, title, description, status, board` (§6); a task without a board has no such field. -/
def encodeTask (task : Task) : JsString :=
  utf16 "\x7b\"id\":" ++ encodeNat task.id
    ++ utf16 ",\"title\":" ++ jsonStringify task.title
    ++ utf16 ",\"description\":" ++ jsonStringify task.description
    ++ utf16 ",\"status\":" ++ jsonStringify task.status
    ++ (match task.board with
        | some board => utf16 ",\"board\":" ++ jsonStringify board
        | Option.none => [])
    ++ utf16 "\x7d"

/-- Modelled from the spec: the Task Collection "persisted as one serialized blob", a JSON
array of Task objects (§3, §6). -/
def encodeTasks (tasks : List Task) : JsString :=
  utf16 "[" ++ ((tasks.map encodeTask).intersperse (utf16 ",")).flatten ++ utf16 "]"

/-- The value of a member of a parsed object; of several members with one key the last. -/
def lookupMember (key : JsString) (members : List (JsString × JsVal)) : Option JsVal :=
  (members.reverse.find? fun member => member.1 == key).map fun member => member.2

def asText : Option JsVal → Option JsString
  | some (JsVal.str s) => some s
  | _ => Option.none

def asId : Option JsVal → Option Nat
  | some (JsVal.num false mant (Int.ofNat e)) => some (mant * 10 ^ e)
  | _ => Option.none

/-- Modelled from the spec: a Task read back from its JSON object (§3, §6); `none` when
the value is not an object with an integer `id` and text `title`, `description`, `status`. -/
def decodeTask : JsVal → Option Task
  | JsVal.obj members =>
    match asId (lookupMember (utf16 "id") members),
      asText (lookupMember (utf16 "title") members),
      asText (lookupMember (utf16 "description") members),
      asText (lookupMember (utf16 "status") members) with
    | some id, some title, some description, some status =>
      some { id := id, title := title, description := description, status := status,
             board := asText (lookupMember (utf16 "board") members) }
    | _, _, _, _ => Option.none
  | _ => Option.none

/-- Modelled from the spec: `listTasks()` "deserializes the stored collection; returns empty
sequence if absent or malformed" (§4.2), the collection being the text under `tasks`. -/
def specGetTasks (st : Store) : List Task :=
  match st.getItem "tasks" with
  | Option.none => []
  | some text =>
    match jsonParse text with
    | .ok (JsVal.arr items) => (items.mapM decodeTask).getD []
    | _ => []

/-- Modelled from the spec: "a fresh unique `id`" (§4.2): the creation timestamp when no
task has it, otherwise one more than the largest id. -/
def freshId (tasks : List Task) (now : Nat) : Nat :=
  if now ∈ tasks.map (fun task => task.id) then
    (tasks.map fun task => task.id).foldr max 0 + 1
  else now

/-- Modelled from the spec: `createTask(fields)` "assigns a fresh unique `id`, validates
`status` is one of the known columns and `title` is non-empty, appends to the collection,
persists the full collection, returns the created Task"; on a violated constraint it fails
and changes nothing (§4.2, §4.5).  A board that is not text is outside the data model (§3)
and is stored as no board. -/
def specCreateNewTask (knownColumns : List JsString) (st : Store) (draft : TaskDraft) :
    Store × Option Task :=
  if draft.title.isEmpty ∨ draft.status ∉ knownColumns then (st, Option.none)
  else
    let tasks := specGetTasks st
    let task : Task :=
      { id := freshId tasks draft.id, title := draft.title, description := draft.description,
        status := draft.status, board := asText (some draft.board) }
    (st.setItem "tasks" (encodeTasks (tasks ++ [task])), some task)

/-- Modelled from the spec: `patchTask(id, fields)` "locates the task by `id`; if absent,
signals `NotFound`" without a state change; "if present, merges the supplied fields into
the existing record and persists the whole collection" (§4.2). -/
def specPatchTask (st : Store) (id : Nat) (updates : TaskUpdate) : Store :=
  let tasks := specGetTasks st
  if id ∈ tasks.map (fun task => task.id) then
    st.setItem "tasks" (encodeTasks (tasks.map fun task =>
      if task.id = id then
        { task with title := updates.title, description := updates.description,
                    status := updates.status, board := asText (some updates.board) }
      else task))
  else st

/-- Modelled from the spec: `deleteTask(id)` "removes the task with matching `id`; persists
the remaining collection; signals `NotFound` if no such task existed" (§4.2). -/
def specDeleteTask (st : Store) (id : Nat) : Store :=
  let tasks := specGetTasks st
  if id ∈ tasks.map (fun task => task.id) then
    st.setItem "tasks" (encodeTasks (tasks.filter fun task => task.id ≠ id))
  else st

/-- Modelled from the spec: the Task Repository of §4.2 standing for
`./utils/taskFunctions.js`, with the declared columns as a parameter. -/
def specRepo (knownColumns : List JsString) : Repo :=
  { getTasks := specGetTasks
    createNewTask := specCreateNewTask knownColumns
    patchTask := specPatchTask
    deleteTask := specDeleteTask }

/-! ## Concrete pages used as examples -/

/-- The three declared columns `todo`, `doing`, `done`. -/
def exampleStatuses : List JsString := [utf16 "todo", utf16 "doing", utf16 "done"]

/-- The page before any handler has run: `activeBoard` is `""`, the columns are as in the
markup, no `onclick` is installed. -/
def pageOnLoad (st : Store) : State :=
  { localStorage := st
    activeBoard := JsVal.str []
    headerBoardName := JsVal.str []
    boardButtons := []
    columns := exampleStatuses.map fun status => { status := status, tasksContainer := Option.none }
    modalWindow := Display.stylesheet
    editTaskModal := Display.stylesheet
    filterDiv := Display.stylesheet
    sideBar := Display.stylesheet
    showSideBarBtn := Display.stylesheet
    hideSideBarBtn := Display.stylesheet
    lightTheme := false
    addForm := { title := [], description := [], status := utf16 "todo" }
    addFormDefault := { title := [], description := [], status := utf16 "todo" }
    editForm := { title := [], description := [], status := utf16 "todo" }
    saveChangesOnclick := Option.none
    deleteTaskOnclick := Option.none
    calls := [] }

/-- A store holding exactly the given keys. -/
def storeOf (items : List (String × JsString)) : Store :=
  fun key => (items.find? fun item => item.1 == key).map fun item => item.2

def taskA1 : Task :=
  { id := 1, title := utf16 "Plan", description := utf16 "", status := utf16 "todo",
    board := some (utf16 "A") }

def taskB2 : Task :=
  { id := 2, title := utf16 "Build", description := utf16 "x", status := utf16 "doing",
    board := some (utf16 "B") }

def taskA3 : Task :=
  { id := 3, title := utf16 "Ship", description := utf16 "", status := utf16 "todo",
    board := some (utf16 "A") }

/-- Three stored tasks: two on board `A`, one on board `B`. -/
def exampleTasks : List Task := [taskA1, taskB2, taskA3]

/-- A store whose preference names a board no task has. -/
def ghostStore : Store :=
  storeOf [("tasks", encodeTasks exampleTasks), ("activeBoard", utf16 "\"Ghost\"")]

/-- A store whose preference is not JSON text: the name without its quotes. -/
def corruptStore : Store :=
  storeOf [("tasks", encodeTasks exampleTasks), ("activeBoard", utf16 "Ghost")]

/-- A store with tasks and no preference. -/
def freshStore : Store :=
  storeOf [("tasks", encodeTasks exampleTasks)]

/-- A store whose `tasks` key is present and holds the empty text. -/
def emptyTasksStore : Store :=
  storeOf [("tasks", [])]

/-- A store without tasks: the board projection is empty and the load renders nothing. -/
def noTasksStore : Store :=
  storeOf [("tasks", utf16 "[]")]

/-- The page once the load has run on `noTasksStore`: `getTasks()` was called, no board
button was made and no column was rebuilt. -/
def emptyBoardPage : State :=
  { pageOnLoad noTasksStore with calls := [Call.getTasks] }

/-- The page after the load on `freshStore` with `Ship it` typed into the add form. -/
def typedPage : State :=
  { refreshTasksUI (specRepo exampleStatuses)
      { pageOnLoad freshStore with activeBoard := JsVal.str (utf16 "A") } with
    addForm := { title := utf16 "Ship it", description := [], status := utf16 "done" } }

/-- A status with a double quote in it: `do"ne`. -/
def quoteStatus : JsString := utf16 "do\"ne"

/-- The declared columns of a page whose third column has the status `do"ne`. -/
def quoteStatuses : List JsString := [utf16 "todo", utf16 "doing", quoteStatus]

/-- A page showing board `A` with the add modal open, `Ship it` typed as title and the
status `do"ne` selected. -/
def quotePage : State :=
  { refreshTasksUI (specRepo quoteStatuses)
      { pageOnLoad freshStore with
        activeBoard := JsVal.str (utf16 "A")
        columns := quoteStatuses.map fun status =>
          { status := status, tasksContainer := Option.none } } with
    modalWindow := Display.block
    filterDiv := Display.block
    addForm := { title := utf16 "Ship it", description := [], status := quoteStatus } }

/-- An oracle for examples that never consult it. -/
def unusedOracle : SelectorOracle := fun _ _ => .ok Placement.nowhere

/-- The empty page with `Ship it` typed into the add form. -/
def typedEmptyPage : State :=
  { emptyBoardPage with
    addForm := { title := utf16 "Ship it", description := [], status := utf16 "todo" } }

/-- The task a submit on `typedEmptyPage` stores: its board is the empty text, the value of
`activeBoard` on a page without boards. -/
def blankBoardTask : Task :=
  { id := 5, title := utf16 "Ship it", description := [], status := utf16 "todo",
    board := some [] }

/-- The store a submit on `typedEmptyPage` leaves. -/
def blankBoardStore : Store :=
  storeOf [("tasks", encodeTasks [blankBoardTask])]

/-- A store whose preference is the JSON text of an object with a `toString` member. -/
def objectStore : Store :=
  storeOf [("tasks", encodeTasks exampleTasks),
    ("activeBoard", utf16 "\x7b\"toString\":1\x7d")]

/-- The page once the load has run on `blankBoardStore`: `getTasks()` was called, the
board projection is empty, so no board button was made and no column was rebuilt. -/
def reloadedPage : State :=
  { pageOnLoad blankBoardStore with calls := [Call.getTasks] }

/-! ## Lemmas on the JSON codec -/

theorem hexVal_hexDigit : ∀ n, n < 16 → hexVal (hexDigit n) = some n := by decide

theorem parseStringBody_escape (e u : Nat) (tail : List Nat) (he : e ≠ 0x75)
    (hu : unescape e = some u) :
    parseStringBody (0x5C :: e :: tail)
      = (parseStringBody tail).map fun p => (u :: p.1, p.2) := by
  rw [parseStringBody.eq_def]
  simp [he, hu]

theorem parseStringBody_raw (c : Nat) (tail : List Nat) (h1 : c ≠ 0x22) (h2 : c ≠ 0x5C)
    (h3 : 0x20 ≤ c) :
    parseStringBody (c :: tail) = (parseStringBody tail).map fun p => (c :: p.1, p.2) := by
  rw [parseStringBody.eq_def]
  simp [h1, h2, Nat.not_lt.mpr h3]

theorem parseStringBody_quote (tail : List Nat) :
    parseStringBody (0x22 :: tail) = some ([], tail) := by
  rw [parseStringBody.eq_def]
  simp

theorem parseStringBody_unicodeEscape (c : Nat) (hc : c < 65536) (tail : List Nat) :
    parseStringBody (unicodeEscape c ++ tail)
      = (parseStringBody tail).map fun p => (c :: p.1, p.2) := by
  have h3 := hexVal_hexDigit (c / 4096 % 16) (Nat.mod_lt _ (by decide))
  have h2 := hexVal_hexDigit (c / 256 % 16) (Nat.mod_lt _ (by decide))
  have h1 := hexVal_hexDigit (c / 16 % 16) (Nat.mod_lt _ (by decide))
  have h0 := hexVal_hexDigit (c % 16) (Nat.mod_lt _ (by decide))
  have hsum : 4096 * (c / 4096 % 16) + 256 * (c / 256 % 16) + 16 * (c / 16 % 16) + c % 16 = c := by
    omega
  simp only [unicodeEscape, List.cons_append, List.nil_append]
  rw [parseStringBody.eq_def]
  simp [h3, h2, h1, h0, hsum]

theorem parseStringBody_quoteUnit (c : Nat) (tail : List Nat) :
    parseStringBody (quoteUnit c ++ tail)
      = (parseStringBody tail).map fun p => (c :: p.1, p.2) := by
  unfold quoteUnit
  split_ifs with h1 h2 h3 h4 h5 h6 h7 h8
  · subst h1; exact parseStringBody_escape _ _ _ (by decide) (by decide)
  · subst h2; exact parseStringBody_escape _ _ _ (by decide) (by decide)
  · subst h3; exact parseStringBody_escape _ _ _ (by decide) (by decide)
  · subst h4; exact parseStringBody_escape _ _ _ (by decide) (by decide)
  · subst h5; exact parseStringBody_escape _ _ _ (by decide) (by decide)
  · subst h6; exact parseStringBody_escape _ _ _ (by decide) (by decide)
  · subst h7; exact parseStringBody_escape _ _ _ (by decide) (by decide)
  · apply parseStringBody_unicodeEscape
    simp only [isHighSurrogate, isLowSurrogate, decide_eq_true_eq] at h8
    omega
  · simp only [isHighSurrogate, isLowSurrogate, decide_eq_true_eq, not_or, not_lt] at h8
    exact parseStringBody_raw c tail h6 h7 h8.1

theorem parseStringBody_quoteBody (s : JsString) (tail : List Nat) :
    parseStringBody (quoteBody s ++ 0x22 :: tail) = some (s, tail) := by
  induction s using quoteBody.induct with
  | case1 => simp [quoteBody, parseStringBody_quote]
  | case2 c =>
    rw [quoteBody, parseStringBody_quoteUnit, parseStringBody_quote]
    rfl
  | case3 c d rest h ih =>
    rw [quoteBody, if_pos h]
    simp only [isHighSurrogate, isLowSurrogate, decide_eq_true_eq] at h
    simp only [List.cons_append]
    rw [parseStringBody_raw c _ (by omega) (by omega) (by omega),
      parseStringBody_raw d _ (by omega) (by omega) (by omega), ih]
    rfl
  | case4 c d rest h ih =>
    rw [quoteBody, if_neg h, List.append_assoc, parseStringBody_quoteUnit, ih]
    rfl

/-- `JSON.parse(JSON.stringify(s))` is `s` for every string `s`. -/
theorem jsonParse_jsonStringify (s : JsString) : jsonParse (jsonStringify s) = .ok (.str s) := by
  have h : ∀ fuel, parseValue (fuel + 1) (0x22 :: (quoteBody s ++ [0x22]))
      = some (JsVal.str s, []) := by
    intro fuel
    rw [parseValue]
    simp [parseStringBody_quoteBody]
  simp only [jsonParse, jsonStringify]
  rw [show skipWhitespace (0x22 :: (quoteBody s ++ [0x22])) = 0x22 :: (quoteBody s ++ [0x22]) from by
    simp [skipWhitespace, isWhitespace]]
  rw [show 2 * (0x22 :: (quoteBody s ++ [0x22])).length + 2
      = (2 * (0x22 :: (quoteBody s ++ [0x22])).length + 1) + 1 from rfl, h]
  simp [skipWhitespace]

/-! ### The parser consumes its input and has enough fuel -/

theorem parseStringBody_length (cs : List Nat) :
    ∀ s r, parseStringBody cs = some (s, r) → r.length < cs.length := by
  induction cs using parseStringBody.induct with
  | case1 => intro s r h; simp [parseStringBody] at h
  | case2 cs =>
    intro s r h
    rw [parseStringBody_quote] at h
    simp only [Option.some.injEq, Prod.mk.injEq] at h
    simp [← h.2]
  | case3 _ => intro s r h; rw [parseStringBody.eq_def] at h; simp at h
  | case4 h1 h2 h3 h4 rest3 a b c3 d e4 e3 e2 e1 _ ih =>
    intro s r h
    rw [parseStringBody.eq_def] at h
    simp only [e1, e2, e3, e4] at h
    simp at h
    obtain ⟨s', hs', _, rfl⟩ := h
    have := ih _ _ hs'
    simp only [List.length_cons]
    omega
  | case5 h1 h2 h3 h4 rest3 hno _ =>
    intro s r h
    rw [parseStringBody.eq_def] at h
    simp at h
  | case6 cs hno _ =>
    intro s r h
    rw [parseStringBody.eq_def] at h
    simp at h
  | case7 c cs hc u hu _ ih =>
    intro s r h
    rw [parseStringBody_escape c u cs hc hu] at h
    simp at h
    obtain ⟨s', hs', _, rfl⟩ := h
    have := ih _ _ hs'
    simp only [List.length_cons]
    omega
  | case8 c cs hc hu _ =>
    intro s r h
    rw [parseStringBody.eq_def] at h
    simp [hc, hu] at h
  | case9 c cs h1 h2 h3 =>
    intro s r h
    rw [parseStringBody.eq_def] at h
    simp [h1, h2, h3] at h
  | case10 c cs h1 h2 h3 ih =>
    intro s r h
    rw [parseStringBody_raw c cs h1 h2 (by omega)] at h
    simp at h
    obtain ⟨s', hs', _, rfl⟩ := h
    have := ih _ _ hs'
    simp only [List.length_cons]
    omega

theorem skipWhitespace_length (cs : List Nat) : (skipWhitespace cs).length ≤ cs.length := by
  induction cs with
  | nil => simp [skipWhitespace]
  | cons c cs ih =>
    simp only [skipWhitespace]
    split_ifs
    · simp only [List.length_cons]; omega
    · exact Nat.le_refl _

theorem takeDigits_length (acc n : Nat) (cs : List Nat) :
    (takeDigits acc n cs).2.2.length ≤ cs.length := by
  induction cs generalizing acc n with
  | nil => simp [takeDigits]
  | cons c cs ih =>
    simp only [takeDigits]
    cases digitVal c with
    | none => simp
    | some d =>
      have := ih (10 * acc + d) (n + 1)
      simp only [List.length_cons]
      omega

theorem parseInt_length (cs : List Nat) (i : Nat) (r : List Nat)
    (h : parseInt cs = some (i, r)) : r.length < cs.length := by
  cases cs with
  | nil => simp [parseInt] at h
  | cons c cs =>
    simp only [parseInt] at h
    split_ifs at h with hc
    · simp at h; simp [← h.2]
    · cases hd : digitVal c with
      | none => simp [hd] at h
      | some d =>
        simp [hd] at h
        have := takeDigits_length d 1 cs
        rw [← h.2]
        simp only [List.length_cons]
        omega

theorem parseFrac_length (mant : Nat) (cs : List Nat) (m n : Nat) (r : List Nat)
    (h : parseFrac mant cs = some (m, n, r)) : r.length ≤ cs.length := by
  cases cs with
  | nil => simp [parseFrac] at h; simp [h.2.2.symm]
  | cons c cs =>
    simp only [parseFrac] at h
    split_ifs at h with hc h0
    · simp at h
      have := takeDigits_length mant 0 cs
      rw [h] at this
      simp only [List.length_cons]
      simp at this
      omega
    · simp at h; simp [← h.2.2]

theorem parseExp_length (cs : List Nat) (e : Int) (r : List Nat)
    (h : parseExp cs = some (e, r)) : r.length ≤ cs.length := by
  cases cs with
  | nil => simp [parseExp] at h; simp [h.2.symm]
  | cons c cs =>
    simp only [parseExp] at h
    split_ifs at h with hc
    · cases cs with
      | nil => simp at h
      | cons s cs2 =>
        simp only at h
        split_ifs at h with h1 h2 h3 h4 h5
        · simp at h
          have := takeDigits_length 0 0 cs2
          rw [← h.2]; simp only [List.length_cons]; omega
        · simp at h
          have := takeDigits_length 0 0 cs2
          rw [← h.2]; simp only [List.length_cons]; omega
        · simp at h
          have := takeDigits_length 0 0 (s :: cs2)
          rw [← h.2]; simp only [List.length_cons] at this ⊢; omega
    · simp at h; simp [← h.2]

theorem parseUnsigned_length (neg : Bool) (cs : List Nat) (v : JsVal) (r : List Nat)
    (h : parseUnsigned neg cs = some (v, r)) : r.length < cs.length := by
  simp only [parseUnsigned] at h
  cases h1 : parseInt cs with
  | none => simp [h1] at h
  | some p1 =>
    obtain ⟨i, r1⟩ := p1
    simp only [h1] at h
    cases h2 : parseFrac i r1 with
    | none => simp [h2] at h
    | some p2 =>
      obtain ⟨mant, nfrac, r2⟩ := p2
      simp only [h2] at h
      cases h3 : parseExp r2 with
      | none => simp [h3] at h
      | some p3 =>
        obtain ⟨e, r3⟩ := p3
        simp only [h3, Option.some.injEq, Prod.mk.injEq] at h
        have a1 := parseInt_length cs i r1 h1
        have a2 := parseFrac_length i r1 mant nfrac r2 h2
        have a3 := parseExp_length r2 e r3 h3
        rw [← h.2]
        omega

theorem parseNumber_length (cs : List Nat) (v : JsVal) (r : List Nat)
    (h : parseNumber cs = some (v, r)) : r.length < cs.length := by
  cases cs with
  | nil => simp [parseNumber] at h
  | cons c cs =>
    simp only [parseNumber] at h
    split_ifs at h
    · have := parseUnsigned_length true cs v r h
      simp only [List.length_cons]; omega
    · exact parseUnsigned_length false (c :: cs) v r h

theorem expectLit_length (lit cs r : List Nat) (h : expectLit lit cs = some r) :
    r.length ≤ cs.length := by
  induction lit generalizing cs with
  | nil => simp [expectLit] at h; simp [h]
  | cons l ls ih =>
    cases cs with
    | nil => simp [expectLit] at h
    | cons c cs =>
      simp only [expectLit] at h
      split_ifs at h
      have := ih cs h
      simp only [List.length_cons]; omega

theorem parseValue_succ_cons (fuel c : Nat) (rest : List Nat) :
    parseValue (fuel + 1) (c :: rest) =
      if c = 0x22 then (parseStringBody rest).map fun p => (JsVal.str p.1, p.2)
      else if c = 0x5B then
        match skipWhitespace rest with
        | [] => none
        | d :: r => if d = 0x5D then some (JsVal.arr [], r)
                    else (parseElements fuel (d :: r)).map fun p => (JsVal.arr p.1, p.2)
      else if c = 0x7B then
        match skipWhitespace rest with
        | [] => none
        | d :: r => if d = 0x7D then some (JsVal.obj [], r)
                    else (parseMembers fuel (d :: r)).map fun p => (JsVal.obj p.1, p.2)
      else if c = 0x6E then (expectLit [0x75, 0x6C, 0x6C] rest).map fun r => (JsVal.null, r)
      else if c = 0x74 then (expectLit [0x72, 0x75, 0x65] rest).map fun r => (JsVal.bool true, r)
      else if c = 0x66 then
        (expectLit [0x61, 0x6C, 0x73, 0x65] rest).map fun r => (JsVal.bool false, r)
      else parseNumber (c :: rest) := by
  rw [parseValue]

theorem parseElements_succ (fuel : Nat) (cs : List Nat) :
    parseElements (fuel + 1) cs =
      match parseValue fuel cs with
      | none => none
      | some (v, r) =>
        match skipWhitespace r with
        | [] => none
        | d :: r2 =>
          if d = 0x2C then (parseElements fuel (skipWhitespace r2)).map fun p => (v :: p.1, p.2)
          else if d = 0x5D then some ([v], r2)
          else none := by
  rw [parseElements]

theorem parseMembers_succ_cons (fuel c : Nat) (rest : List Nat) :
    parseMembers (fuel + 1) (c :: rest) =
      if c = 0x22 then
        match parseStringBody rest with
        | none => none
        | some (key, r) =>
          match skipWhitespace r with
          | [] => none
          | d :: r2 =>
            if d = 0x3A then
              match parseValue fuel (skipWhitespace r2) with
              | none => none
              | some (v, r3) =>
                match skipWhitespace r3 with
                | [] => none
                | e :: r4 =>
                  if e = 0x2C then
                    (parseMembers fuel (skipWhitespace r4)).map fun p => ((key, v) :: p.1, p.2)
                  else if e = 0x7D then some ([(key, v)], r4)
                  else none
            else none
      else none := by
  rw [parseMembers]

theorem parseValue_nil (fuel : Nat) : parseValue fuel [] = none := by
  cases fuel <;> rfl

theorem parseMembers_nil (fuel : Nat) : parseMembers fuel [] = none := by
  cases fuel <;> rfl

theorem parseValue_zero (cs : List Nat) : parseValue 0 cs = none := by
  cases cs <;> rfl

theorem parseElements_zero (cs : List Nat) : parseElements 0 cs = none := by
  rfl

theorem parseMembers_zero (cs : List Nat) : parseMembers 0 cs = none := by
  cases cs <;> rfl

theorem parse_length (fuel : Nat) :
    (∀ cs v r, parseValue fuel cs = some (v, r) → r.length < cs.length)
    ∧ (∀ cs vs r, parseElements fuel cs = some (vs, r) → r.length < cs.length)
    ∧ (∀ cs ms r, parseMembers fuel cs = some (ms, r) → r.length < cs.length) := by
  induction fuel with
  | zero =>
    refine ⟨?_, ?_, ?_⟩ <;> intro cs v r h
    · rw [parseValue_zero] at h; cases h
    · rw [parseElements_zero] at h; cases h
    · rw [parseMembers_zero] at h; cases h
  | succ fuel ih =>
    obtain ⟨ihv, ihe, ihm⟩ := ih
    refine ⟨?_, ?_, ?_⟩
    · intro cs v r h
      cases cs with
      | nil => rw [parseValue_nil] at h; cases h
      | cons c rest =>
        rw [parseValue_succ_cons] at h
        simp only [List.length_cons]
        split_ifs at h with h1 h2 h3 h4 h5 h6
        · cases hp : parseStringBody rest with
          | none => simp [hp] at h
          | some p =>
            simp [hp] at h
            have := parseStringBody_length rest p.1 p.2 hp
            rw [← h.2]; omega
        · have hsk := skipWhitespace_length rest
          cases hs : skipWhitespace rest with
          | nil => simp [hs] at h
          | cons d r0 =>
            rw [hs] at hsk
            simp only [hs] at h
            simp only [List.length_cons] at hsk
            split_ifs at h
            · simp at h; rw [← h.2]; omega
            · cases hp : parseElements fuel (d :: r0) with
              | none => simp [hp] at h
              | some p =>
                simp [hp] at h
                have := ihe (d :: r0) p.1 p.2 hp
                simp only [List.length_cons] at this
                rw [← h.2]; omega
        · have hsk := skipWhitespace_length rest
          cases hs : skipWhitespace rest with
          | nil => simp [hs] at h
          | cons d r0 =>
            rw [hs] at hsk
            simp only [hs] at h
            simp only [List.length_cons] at hsk
            split_ifs at h
            · simp at h; rw [← h.2]; omega
            · cases hp : parseMembers fuel (d :: r0) with
              | none => simp [hp] at h
              | some p =>
                simp [hp] at h
                have := ihm (d :: r0) p.1 p.2 hp
                simp only [List.length_cons] at this
                rw [← h.2]; omega
        · cases hp : expectLit [0x75, 0x6C, 0x6C] rest with
          | none => simp [hp] at h
          | some p =>
            simp [hp] at h
            have := expectLit_length _ rest p hp
            rw [← h.2]; omega
        · cases hp : expectLit [0x72, 0x75, 0x65] rest with
          | none => simp [hp] at h
          | some p =>
            simp [hp] at h
            have := expectLit_length _ rest p hp
            rw [← h.2]; omega
        · cases hp : expectLit [0x61, 0x6C, 0x73, 0x65] rest with
          | none => simp [hp] at h
          | some p =>
            simp [hp] at h
            have := expectLit_length _ rest p hp
            rw [← h.2]; omega
        · have := parseNumber_length (c :: rest) v r h
          simpa using this
    · intro cs vs r h
      rw [parseElements_succ] at h
      cases hp : parseValue fuel cs with
      | none => simp [hp] at h
      | some p =>
        obtain ⟨v, r1⟩ := p
        have hv := ihv cs v r1 hp
        simp only [hp] at h
        have hsk := skipWhitespace_length r1
        cases hs : skipWhitespace r1 with
        | nil => simp [hs] at h
        | cons d r2 =>
          rw [hs] at hsk
          simp only [hs] at h
          simp only [List.length_cons] at hsk
          split_ifs at h
          · cases hq : parseElements fuel (skipWhitespace r2) with
            | none => simp [hq] at h
            | some q =>
              simp [hq] at h
              have := ihe _ q.1 q.2 hq
              have := skipWhitespace_length r2
              rw [← h.2]; omega
          · simp at h; rw [← h.2]; omega
    · intro cs ms r h
      cases cs with
      | nil => rw [parseMembers_nil] at h; cases h
      | cons c rest =>
        rw [parseMembers_succ_cons] at h
        simp only [List.length_cons]
        split_ifs at h with h1
        cases hk : parseStringBody rest with
        | none => simp [hk] at h
        | some k =>
          obtain ⟨key, r1⟩ := k
          have hkl := parseStringBody_length rest key r1 hk
          simp only [hk] at h
          have hsk := skipWhitespace_length r1
          cases hs : skipWhitespace r1 with
          | nil => simp [hs] at h
          | cons d r2 =>
            rw [hs] at hsk
            simp only [hs] at h
            simp only [List.length_cons] at hsk
            split_ifs at h
            have hsk2 := skipWhitespace_length r2
            cases hp : parseValue fuel (skipWhitespace r2) with
            | none => simp [hp] at h
            | some p =>
              obtain ⟨v, r3⟩ := p
              have hv := ihv _ v r3 hp
              simp only [hp] at h
              have hsk3 := skipWhitespace_length r3
              cases hs3 : skipWhitespace r3 with
              | nil => simp [hs3] at h
              | cons e r4 =>
                rw [hs3] at hsk3
                simp only [hs3] at h
                simp only [List.length_cons] at hsk3
                split_ifs at h
                · cases hq : parseMembers fuel (skipWhitespace r4) with
                  | none => simp [hq] at h
                  | some q =>
                    simp [hq] at h
                    have := ihm _ q.1 q.2 hq
                    have := skipWhitespace_length r4
                    rw [← h.2]; omega
                · simp at h; rw [← h.2]; omega

theorem parse_stable (fuel : Nat) :
    (∀ cs, 2 * cs.length + 1 ≤ fuel → parseValue (fuel + 1) cs = parseValue fuel cs)
    ∧ (∀ cs, 2 * cs.length + 2 ≤ fuel → parseElements (fuel + 1) cs = parseElements fuel cs)
    ∧ (∀ cs, 2 * cs.length + 2 ≤ fuel → parseMembers (fuel + 1) cs = parseMembers fuel cs) := by
  induction fuel with
  | zero =>
    refine ⟨?_, ?_, ?_⟩ <;> intro cs h <;> omega
  | succ fuel ih =>
    obtain ⟨ihv, ihe, ihm⟩ := ih
    refine ⟨?_, ?_, ?_⟩
    · intro cs hfuel
      cases cs with
      | nil => rw [parseValue_nil, parseValue_nil]
      | cons c rest =>
        rw [parseValue_succ_cons (fuel + 1), parseValue_succ_cons fuel]
        simp only [List.length_cons] at hfuel
        have hsk := skipWhitespace_length rest
        cases hs : skipWhitespace rest with
        | nil => rfl
        | cons d r0 =>
          rw [hs] at hsk
          simp only [List.length_cons] at hsk
          simp only
          rw [ihe (d :: r0) (by simp only [List.length_cons]; omega),
            ihm (d :: r0) (by simp only [List.length_cons]; omega)]
    · intro cs hfuel
      rw [parseElements_succ (fuel + 1), parseElements_succ fuel, ihv cs (by omega)]
      cases hp : parseValue fuel cs with
      | none => rfl
      | some p =>
        obtain ⟨v, r1⟩ := p
        simp only
        have hv := (parse_length fuel).1 cs v r1 hp
        have hsk := skipWhitespace_length r1
        cases hs : skipWhitespace r1 with
        | nil => rfl
        | cons d r2 =>
          rw [hs] at hsk
          simp only [List.length_cons] at hsk
          have hsk2 := skipWhitespace_length r2
          simp only
          rw [ihe (skipWhitespace r2) (by omega)]
    · intro cs hfuel
      cases cs with
      | nil => rw [parseMembers_nil, parseMembers_nil]
      | cons c rest =>
        rw [parseMembers_succ_cons (fuel + 1), parseMembers_succ_cons fuel]
        simp only [List.length_cons] at hfuel
        cases hk : parseStringBody rest with
        | none => rfl
        | some k =>
          obtain ⟨key, r1⟩ := k
          simp only
          have hkl := parseStringBody_length rest key r1 hk
          have hsk := skipWhitespace_length r1
          cases hs : skipWhitespace r1 with
          | nil => rfl
          | cons d r2 =>
            rw [hs] at hsk
            simp only [List.length_cons] at hsk
            have hsk2 := skipWhitespace_length r2
            simp only
            rw [ihv (skipWhitespace r2) (by omega)]
            cases hp : parseValue fuel (skipWhitespace r2) with
            | none => rfl
            | some p =>
              obtain ⟨v, r3⟩ := p
              simp only
              have hv := (parse_length fuel).1 _ v r3 hp
              have hsk3 := skipWhitespace_length r3
              cases hs3 : skipWhitespace r3 with
              | nil => rfl
              | cons e r4 =>
                rw [hs3] at hsk3
                simp only [List.length_cons] at hsk3
                have hsk4 := skipWhitespace_length r4
                simp only
                rw [ihm (skipWhitespace r4) (by omega)]

theorem parseValue_more_fuel (cs : List Nat) (fuel extra : Nat)
    (h : 2 * cs.length + 1 ≤ fuel) : parseValue (fuel + extra) cs = parseValue fuel cs := by
  induction extra with
  | zero => rfl
  | succ k ih =>
    rw [← Nat.add_assoc, (parse_stable (fuel + k)).1 cs (by omega), ih]

/-- The fuel `jsonParse` gives the parser is enough: more fuel gives the same result. -/
theorem jsonParse_fuel (text : JsString) (extra : Nat) :
    parseValue (2 * text.length + 2 + extra) (skipWhitespace text)
      = parseValue (2 * text.length + 2) (skipWhitespace text) :=
  parseValue_more_fuel _ _ _ (by have := skipWhitespace_length text; omega)

/-! ## Lemmas on the board projection -/

theorem firstIndex_cons_self {α : Type} [DecidableEq α] (a : α) (l : List α) :
    firstIndex a (a :: l) = 0 := by
  simp [firstIndex]

theorem firstIndex_cons_ne {α : Type} [DecidableEq α] {a b : α} (l : List α) (h : b ≠ a) :
    firstIndex a (b :: l) = firstIndex a l + 1 := by
  simp [firstIndex, h]

theorem firstIndex_lt_length {α : Type} [DecidableEq α] {a : α} {l : List α} (h : a ∈ l) :
    firstIndex a l < l.length := by
  induction l with
  | nil => simp at h
  | cons x xs ih =>
    by_cases hx : x = a
    · subst hx; simp [firstIndex]
    · rw [firstIndex_cons_ne _ hx]
      have := ih (by
        rcases List.mem_cons.mp h with e | e
        · exact absurd e.symm hx
        · exact e)
      simp only [List.length_cons]
      omega

theorem firstIndex_append_of_mem {α : Type} [DecidableEq α] {a : α} {l₁ : List α}
    (l₂ : List α) (h : a ∈ l₁) : firstIndex a (l₁ ++ l₂) = firstIndex a l₁ := by
  induction l₁ with
  | nil => simp at h
  | cons x xs ih =>
    by_cases hx : x = a
    · subst hx; simp [firstIndex]
    · rw [List.cons_append, firstIndex_cons_ne _ hx, firstIndex_cons_ne _ hx, ih (by
        rcases List.mem_cons.mp h with e | e
        · exact absurd e.symm hx
        · exact e)]

theorem firstIndex_append_of_not_mem {α : Type} [DecidableEq α] {a : α} {l₁ : List α}
    (l₂ : List α) (h : a ∉ l₁) :
    firstIndex a (l₁ ++ l₂) = l₁.length + firstIndex a l₂ := by
  induction l₁ with
  | nil => simp
  | cons x xs ih =>
    have hx : x ≠ a := fun e => h (e ▸ List.mem_cons_self _ _)
    rw [List.cons_append, firstIndex_cons_ne _ hx, ih (fun e => h (List.mem_cons_of_mem _ e))]
    simp only [List.length_cons]
    omega

theorem mem_filterBoolean (values : List (Option JsString)) (a : JsString) :
    a ∈ filterBoolean values ↔ a ≠ [] ∧ some a ∈ values := by
  simp only [filterBoolean, List.mem_filterMap]
  constructor
  · rintro ⟨v, hv, h⟩
    cases v with
    | none => simp at h
    | some s =>
      cases s with
      | nil => simp at h
      | cons c cs =>
        simp at h
        subst h
        exact ⟨by simp, hv⟩
  · rintro ⟨hne, hmem⟩
    refine ⟨some a, hmem, ?_⟩
    cases a with
    | nil => exact absurd rfl hne
    | cons c cs => simp

theorem setSpread_foldl_mem (values seen : List JsString) (a : JsString) :
    a ∈ values.foldl (fun seen v => if v ∈ seen then seen else seen ++ [v]) seen
      ↔ a ∈ seen ∨ a ∈ values := by
  induction values generalizing seen with
  | nil => simp
  | cons v vs ih =>
    rw [List.foldl_cons, ih]
    by_cases hv : v ∈ seen
    · rw [if_pos hv]
      constructor
      · rintro (h | h)
        · exact Or.inl h
        · exact Or.inr (List.mem_cons_of_mem _ h)
      · rintro (h | h)
        · exact Or.inl h
        · rcases List.mem_cons.mp h with h | h
          · exact Or.inl (h ▸ hv)
          · exact Or.inr h
    · rw [if_neg hv]
      simp only [List.mem_append, List.mem_singleton, List.mem_cons]
      tauto

theorem setSpread_foldl_nodup (values seen : List JsString) (h : seen.Nodup) :
    (values.foldl (fun seen v => if v ∈ seen then seen else seen ++ [v]) seen).Nodup := by
  induction values generalizing seen with
  | nil => simpa using h
  | cons v vs ih =>
    rw [List.foldl_cons]
    apply ih
    by_cases hv : v ∈ seen
    · rw [if_pos hv]; exact h
    · rw [if_neg hv]
      rw [List.nodup_append]
      refine ⟨h, List.nodup_singleton v, ?_⟩
      intro a ha hb
      rw [List.mem_singleton] at hb
      exact hv (hb ▸ ha)

theorem setSpread_foldl_order (pre values seen : List JsString)
    (hseen : ∀ a, a ∈ seen ↔ a ∈ pre)
    (hpw : seen.Pairwise fun a b => firstIndex a (pre ++ values) < firstIndex b (pre ++ values)) :
    (values.foldl (fun seen v => if v ∈ seen then seen else seen ++ [v]) seen).Pairwise
      fun a b => firstIndex a (pre ++ values) < firstIndex b (pre ++ values) := by
  induction values generalizing pre seen with
  | nil => simpa using hpw
  | cons v vs ih =>
    rw [List.foldl_cons]
    have hfull : pre ++ v :: vs = (pre ++ [v]) ++ vs := by simp
    rw [hfull]
    rw [hfull] at hpw
    by_cases hv : v ∈ seen
    · rw [if_pos hv]
      apply ih (pre ++ [v]) seen _ hpw
      intro a
      rw [List.mem_append, List.mem_singleton, hseen]
      constructor
      · exact Or.inl
      · rintro (h | h)
        · exact h
        · exact (hseen a).mp (h ▸ hv)
    · rw [if_neg hv]
      apply ih (pre ++ [v]) (seen ++ [v])
      · intro a
        simp only [List.mem_append, List.mem_singleton, hseen]
      · rw [List.pairwise_append]
        refine ⟨hpw, List.pairwise_singleton _ _, ?_⟩
        intro a ha b hb
        rw [List.mem_singleton] at hb
        subst hb
        have hapre : a ∈ pre := (hseen a).mp ha
        have hbpre : b ∉ pre := fun h => hv ((hseen b).mpr h)
        simp only [List.append_assoc]
        rw [firstIndex_append_of_mem _ hapre,
          firstIndex_append_of_not_mem _ hbpre]
        have := firstIndex_lt_length hapre
        omega

theorem firstIndex_filterBoolean_lt (values : List (Option JsString)) (a b : JsString)
    (ha : a ∈ filterBoolean values) (hb : b ∈ filterBoolean values)
    (h : firstIndex a (filterBoolean values) < firstIndex b (filterBoolean values)) :
    firstIndex (some a) values < firstIndex (some b) values := by
  induction values with
  | nil => simp [filterBoolean] at ha
  | cons v vs ih =>
    have hane : a ≠ [] := ((mem_filterBoolean _ a).mp ha).1
    have hbne : b ≠ [] := ((mem_filterBoolean _ b).mp hb).1
    by_cases hkeep : ∃ s, v = some s ∧ s ≠ []
    · obtain ⟨s, rfl, hs⟩ := hkeep
      have hcons : filterBoolean (some s :: vs) = s :: filterBoolean vs := by
        cases s with
        | nil => exact absurd rfl hs
        | cons c cs => simp [filterBoolean]
      rw [hcons] at ha hb h
      by_cases has : s = a
      · subst has
        by_cases hbs : s = b
        · subst hbs; simp at h
        · rw [firstIndex_cons_self, firstIndex_cons_ne _ (fun e => hbs (Option.some.inj e))]
          omega
      · by_cases hbs : s = b
        · subst hbs
          rw [firstIndex_cons_self] at h
          omega
        · rw [firstIndex_cons_ne _ has, firstIndex_cons_ne _ hbs] at h
          rw [firstIndex_cons_ne _ (fun e => has (Option.some.inj e)),
            firstIndex_cons_ne _ (fun e => hbs (Option.some.inj e))]
          have ha2 : a ∈ filterBoolean vs := by
            rcases List.mem_cons.mp ha with e | e
            · exact absurd e.symm has
            · exact e
          have hb2 : b ∈ filterBoolean vs := by
            rcases List.mem_cons.mp hb with e | e
            · exact absurd e.symm hbs
            · exact e
          have := ih ha2 hb2 (by omega)
          omega
    · have hdrop : filterBoolean (v :: vs) = filterBoolean vs := by
        cases v with
        | none => simp [filterBoolean]
        | some s =>
          cases s with
          | nil => simp [filterBoolean]
          | cons c cs => exact absurd ⟨c :: cs, rfl, by simp⟩ hkeep
      rw [hdrop] at ha hb h
      have hva : v ≠ some a := fun e => hkeep ⟨a, e, hane⟩
      have hvb : v ≠ some b := fun e => hkeep ⟨b, e, hbne⟩
      rw [firstIndex_cons_ne _ hva, firstIndex_cons_ne _ hvb]
      have := ih ha hb h
      omega

theorem boardsOf_nonempty_mem (tasks : List Task) (b : JsString) :
    b ∈ boardsOf tasks ↔ b ≠ [] ∧ ∃ task ∈ tasks, task.board = some b := by
  simp only [boardsOf, setSpread, setSpread_foldl_mem, mem_filterBoolean, List.mem_map,
    List.not_mem_nil, false_or]

/-! ## Theorems -/

/-- C1: the board projection of `fetchAndDisplayBoardsAndTasks` holds no empty value (an
absent one cannot be in it), holds no duplicate, holds exactly the non-empty board values
some task has, and lists them by the position of the first task with that board; boards
`["B","A","B","C"]` give `["B","A","C"]`. -/
theorem boardsOf_first_seen (tasks : List Task) :
    [] ∉ boardsOf tasks
    ∧ (boardsOf tasks).Nodup
    ∧ (∀ b, b ∈ boardsOf tasks ↔ b ≠ [] ∧ ∃ task ∈ tasks, task.board = some b)
    ∧ (boardsOf tasks).Pairwise (fun a b =>
        firstIndex (some a) (tasks.map fun task => task.board)
          < firstIndex (some b) (tasks.map fun task => task.board))
    ∧ ((tasks.map fun task => task.board)
          = [some (utf16 "B"), some (utf16 "A"), some (utf16 "B"), some (utf16 "C")]
        → boardsOf tasks = [utf16 "B", utf16 "A", utf16 "C"]) := by
  have hmem := boardsOf_nonempty_mem tasks
  refine ⟨fun h => ((hmem []).mp h).1 rfl, ?_, hmem, ?_, ?_⟩
  · exact setSpread_foldl_nodup _ [] List.nodup_nil
  · have h := setSpread_foldl_order [] (filterBoolean (tasks.map fun task => task.board)) []
      (fun a => Iff.rfl) List.Pairwise.nil
    simp only [List.nil_append] at h
    refine List.Pairwise.imp_of_mem ?_ h
    intro a b ha hb hab
    have ha2 : a ∈ filterBoolean (tasks.map fun task => task.board) := by
      have := (setSpread_foldl_mem _ [] a).mp ha
      simpa using this
    have hb2 : b ∈ filterBoolean (tasks.map fun task => task.board) := by
      have := (setSpread_foldl_mem _ [] b).mp hb
      simpa using this
    exact firstIndex_filterBoolean_lt _ a b ha2 hb2 hab
  · intro h
    simp only [boardsOf, h]
    decide

/-! ## Lemmas on the view -/

theorem rebuildColumns_appendToColumn (tasks : List Task) (boardName : JsVal) (task : Task)
    (i : Nat) (columns : List Column) :
    rebuildColumns tasks boardName (appendToColumn task i columns)
      = rebuildColumns tasks boardName columns := by
  induction columns generalizing i with
  | nil => cases i <;> rfl
  | cons column rest ih =>
    cases i with
    | zero => simp [appendToColumn, rebuildColumns]
    | succ i =>
      simp only [appendToColumn, rebuildColumns, List.map_cons] at ih ⊢
      rw [ih]

theorem rebuildColumns_placeTask (tasks : List Task) (boardName : JsVal) (task : Task)
    (placement : Placement) (columns : List Column) :
    rebuildColumns tasks boardName (placeTask task placement columns)
      = rebuildColumns tasks boardName columns := by
  cases placement with
  | column i => exact rebuildColumns_appendToColumn tasks boardName task i columns
  | outside => rfl
  | nowhere => rfl

theorem viewAgrees_refreshTasksUI (R : Repo) (s : State) : ViewAgrees R (refreshTasksUI R s) := by
  intro column hcolumn
  simp only [refreshTasksUI, filterAndDisplayTasksByBoard, rebuildColumns, List.mem_map]
    at hcolumn
  obtain ⟨c, _, rfl⟩ := hcolumn
  rfl

theorem viewAgrees_of_same (R : Repo) (s s' : State) (h : ViewAgrees R s)
    (hcolumns : s'.columns = s.columns) (hactive : s'.activeBoard = s.activeBoard)
    (htasks : R.getTasks s'.localStorage = R.getTasks s.localStorage) : ViewAgrees R s' := by
  intro column hcolumn
  rw [hcolumns] at hcolumn
  rw [htasks, hactive]
  exact h column hcolumn

theorem querySelectorColumn_plain (oracle : SelectorOracle) (status : JsString)
    (columns : List Column) (h : status.all plainInSelector = true) :
    ∃ placement, querySelectorColumn oracle status columns = .ok placement := by
  have hd : status.dropWhile plainInSelector = [] := by
    rw [List.dropWhile_eq_nil_iff]
    intro c hc
    exact List.all_eq_true.mp h c hc
  simp only [querySelectorColumn, hd]
  cases firstColumnWith status columns with
  | none => exact ⟨_, rfl⟩
  | some i => exact ⟨_, rfl⟩

/-- C2: `filterAndDisplayTasksByBoard(boardName)` keeps the columns and their statuses, and
the tasks it places in a column are exactly the tasks of `getTasks()` with
`task.board === boardName` and `task.status === status`, in the order of that list; no
task of another board is placed in any column. -/
theorem filterAndDisplayTasksByBoard_columns (R : Repo) (boardName : JsVal) (s : State) :
    (filterAndDisplayTasksByBoard R boardName s).columns.map (fun column => column.status)
      = s.columns.map (fun column => column.status)
    ∧ ∀ column ∈ (filterAndDisplayTasksByBoard R boardName s).columns,
        shownTasks column
          = (R.getTasks s.localStorage).filter (fun task =>
              boardIs task.board boardName && task.status == column.status)
        ∧ column.tasksContainer = some ((shownTasks column).map taskElement)
        ∧ (shownTasks column).Sublist (R.getTasks s.localStorage)
        ∧ (∀ task ∈ shownTasks column, boardIs task.board boardName = true)
        ∧ (∀ name, boardName = JsVal.str name →
            ∀ task ∈ shownTasks column, task.board = some name) := by
  have hshown : ∀ tasks : List Task,
      (tasks.map taskElement).filterMap (fun el => el.onClick) = tasks := by
    intro tasks
    induction tasks with
    | nil => rfl
    | cons t ts ih => simp [taskElement, List.filterMap_cons] at ih ⊢; exact ih
  constructor
  · simp [filterAndDisplayTasksByBoard, rebuildColumns, Function.comp_def]
  · intro column hcolumn
    simp only [filterAndDisplayTasksByBoard, rebuildColumns, List.mem_map] at hcolumn
    obtain ⟨c, _, rfl⟩ := hcolumn
    have hs : shownTasks
        { c with tasksContainer := some ((columnTasks (R.getTasks s.localStorage) boardName
          c.status).map taskElement) }
        = (R.getTasks s.localStorage).filter (fun task =>
            boardIs task.board boardName && task.status == c.status) := by
      simp only [shownTasks, Option.getD_some, hshown, columnTasks, List.filter_filter]
      congr 1
      funext task
      exact Bool.and_comm _ _
    refine ⟨hs, ?_, ?_, ?_, ?_⟩
    · rw [hs]
      simp only [columnTasks, List.filter_filter]
      congr 3
      funext task
      exact Bool.and_comm _ _
    · rw [hs]; exact List.filter_sublist _
    · intro task htask
      rw [hs, List.mem_filter] at htask
      simp only [Bool.and_eq_true] at htask
      exact htask.2.1
    · intro name hname task htask
      rw [hs, List.mem_filter] at htask
      simp only [Bool.and_eq_true] at htask
      have h := htask.2.1
      rw [hname] at h
      cases hb : task.board with
      | none => simp [boardIs, hb] at h
      | some b => simp [boardIs, hb] at h; rw [h]

/-! ### Loading the board view -/

theorem jsonParse_error (text : JsString) (e : JsError) (h : jsonParse text = .error e) :
    e = JsError.syntaxError := by
  unfold jsonParse at h
  split at h
  · cases h; rfl
  · split_ifs at h
    cases h; rfl

theorem parseActiveBoard_error (st : Store) (e : JsError) (h : parseActiveBoard st = .error e) :
    e = JsError.syntaxError := by
  unfold parseActiveBoard at h
  split at h <;> exact jsonParse_error _ e h

theorem fetchAndDisplayBoardsAndTasks_ok (R : Repo) (s : State) (first : JsString)
    (rest : List JsString) (v : JsVal)
    (hboards : boardsOf (R.getTasks s.localStorage) = first :: rest)
    (hparse : parseActiveBoard s.localStorage = .ok v)
    (htext : (chooseActiveBoard v first).toStringReturns = true) :
    ∃ s', fetchAndDisplayBoardsAndTasks R s = .ok s'
      ∧ s'.activeBoard = chooseActiveBoard v first
      ∧ s'.localStorage = s.localStorage
      ∧ ViewAgrees R s' := by
  have h : fetchAndDisplayBoardsAndTasks R s
      = .ok (refreshTasksUI R (styleActiveBoard (chooseActiveBoard v first)
          { displayBoards (first :: rest) { s with calls := s.calls ++ [Call.getTasks] } with
            activeBoard := chooseActiveBoard v first
            headerBoardName := chooseActiveBoard v first })) := by
    simp only [fetchAndDisplayBoardsAndTasks, hboards, displayBoards, hparse, htext, if_true]
  exact ⟨_, h, rfl, rfl, viewAgrees_refreshTasksUI R _⟩

theorem fetchAndDisplayBoardsAndTasks_error (R : Repo) (s : State) (first : JsString)
    (rest : List JsString) (e : JsError)
    (hboards : boardsOf (R.getTasks s.localStorage) = first :: rest)
    (hparse : parseActiveBoard s.localStorage = .error e) :
    fetchAndDisplayBoardsAndTasks R s
      = .error { error := e
                 state := displayBoards (first :: rest)
                   { s with calls := s.calls ++ [Call.getTasks] } } := by
  simp only [fetchAndDisplayBoardsAndTasks, hboards, displayBoards, hparse]

theorem fetchAndDisplayBoardsAndTasks_typeError (R : Repo) (s : State) (first : JsString)
    (rest : List JsString) (v : JsVal)
    (hboards : boardsOf (R.getTasks s.localStorage) = first :: rest)
    (hparse : parseActiveBoard s.localStorage = .ok v)
    (htext : (chooseActiveBoard v first).toStringReturns = false) :
    fetchAndDisplayBoardsAndTasks R s
      = .error { error := JsError.typeError
                 state := { displayBoards (first :: rest)
                              { s with calls := s.calls ++ [Call.getTasks] } with
                            activeBoard := chooseActiveBoard v first } } := by
  simp only [fetchAndDisplayBoardsAndTasks, hboards, displayBoards, hparse, htext]
  rfl

theorem chooseActiveBoard_falsy (v : JsVal) (first : JsString) (h : v.truthy = false) :
    chooseActiveBoard v first = JsVal.str first := by
  simp [chooseActiveBoard, h]

theorem chooseActiveBoard_truthy (v : JsVal) (first : JsString) (h : v.truthy = true) :
    chooseActiveBoard v first = v := by
  simp [chooseActiveBoard, h]

theorem parseActiveBoard_absent (st : Store) (h : st.getItem "activeBoard" = Option.none) :
    parseActiveBoard st = .ok JsVal.null := by
  simp only [parseActiveBoard, h]
  rfl

theorem parseActiveBoard_stringified (st : Store) (b : JsString)
    (h : st.getItem "activeBoard" = some (jsonStringify b)) :
    parseActiveBoard st = .ok (JsVal.str b) := by
  simp only [parseActiveBoard, h, jsonParse_jsonStringify]

/-- C3, on the code: a preference naming a board no task has is not replaced.  With tasks
on boards `A` and `B` and the text `"Ghost"` stored under `activeBoard`, the load sets
`activeBoard` to `Ghost`, which is neither a member of `boards` nor `boards[0]`. -/
theorem fetchAndDisplayBoardsAndTasks_keeps_ghost :
    boardsOf ((specRepo exampleStatuses).getTasks ghostStore) = [utf16 "A", utf16 "B"]
    ∧ ghostStore.getItem "activeBoard" = some (jsonStringify (utf16 "Ghost"))
    ∧ utf16 "Ghost" ∉ boardsOf ((specRepo exampleStatuses).getTasks ghostStore)
    ∧ ∃ s', fetchAndDisplayBoardsAndTasks (specRepo exampleStatuses) (pageOnLoad ghostStore)
          = .ok s'
        ∧ s'.activeBoard = JsVal.str (utf16 "Ghost")
        ∧ textIs (utf16 "A") s'.activeBoard = false := by
  have hb : boardsOf ((specRepo exampleStatuses).getTasks ghostStore)
      = [utf16 "A", utf16 "B"] := by decide
  have hp : parseActiveBoard (pageOnLoad ghostStore).localStorage
      = .ok (JsVal.str (utf16 "Ghost")) := by rfl
  refine ⟨hb, by decide, by rw [hb]; decide, ?_⟩
  obtain ⟨s', h1, h2, _⟩ :=
    fetchAndDisplayBoardsAndTasks_ok (specRepo exampleStatuses) (pageOnLoad ghostStore)
      (utf16 "A") [utf16 "B"] _ hb hp (by rfl)
  refine ⟨s', h1, ?_, ?_⟩
  · rw [h2]; rfl
  · rw [h2]; rfl

/-- C3, amended: for a non-empty board projection and a stored preference that parses,
`fetchAndDisplayBoardsAndTasks` sets `activeBoard` to `boards[0]` when the parsed preference
is falsy and to the parsed preference when it is truthy, member of `boards` or not; the load
then completes, except that a truthy preference which cannot be converted to a string for
the header stops it with a `TypeError` once `activeBoard` is set.  An absent key gives
`boards[0]`, a stored board name `b` (the text `JSON.stringify(b)`) gives `b` unless `b` is
empty. -/
theorem fetchAndDisplayBoardsAndTasks_activeBoard (R : Repo) (s : State) (first : JsString)
    (rest : List JsString) (hboards : boardsOf (R.getTasks s.localStorage) = first :: rest) :
    (∀ v, parseActiveBoard s.localStorage = .ok v → v.truthy = false →
      ∃ s', fetchAndDisplayBoardsAndTasks R s = .ok s' ∧ s'.activeBoard = JsVal.str first)
    ∧ (∀ v, parseActiveBoard s.localStorage = .ok v → v.truthy = true →
        v.toStringReturns = true →
      ∃ s', fetchAndDisplayBoardsAndTasks R s = .ok s' ∧ s'.activeBoard = v)
    ∧ (∀ v, parseActiveBoard s.localStorage = .ok v → v.truthy = true →
        v.toStringReturns = false →
      ∃ thrown, fetchAndDisplayBoardsAndTasks R s = .error thrown
        ∧ thrown.error = JsError.typeError ∧ thrown.state.activeBoard = v)
    ∧ (s.localStorage.getItem "activeBoard" = Option.none →
      ∃ s', fetchAndDisplayBoardsAndTasks R s = .ok s' ∧ s'.activeBoard = JsVal.str first)
    ∧ (∀ b, s.localStorage.getItem "activeBoard" = some (jsonStringify b) →
      ∃ s', fetchAndDisplayBoardsAndTasks R s = .ok s'
        ∧ s'.activeBoard = if b = [] then JsVal.str first else JsVal.str b) := by
  have hfalsy : ∀ v, parseActiveBoard s.localStorage = .ok v → v.truthy = false →
      ∃ s', fetchAndDisplayBoardsAndTasks R s = .ok s' ∧ s'.activeBoard = JsVal.str first := by
    intro v hv hf
    obtain ⟨s', h1, h2, _⟩ := fetchAndDisplayBoardsAndTasks_ok R s first rest v hboards hv
      (by rw [chooseActiveBoard_falsy v first hf]; rfl)
    exact ⟨s', h1, by rw [h2, chooseActiveBoard_falsy v first hf]⟩
  have htruthy : ∀ v, parseActiveBoard s.localStorage = .ok v → v.truthy = true →
      v.toStringReturns = true →
      ∃ s', fetchAndDisplayBoardsAndTasks R s = .ok s' ∧ s'.activeBoard = v := by
    intro v hv ht hc
    obtain ⟨s', h1, h2, _⟩ := fetchAndDisplayBoardsAndTasks_ok R s first rest v hboards hv
      (by rw [chooseActiveBoard_truthy v first ht]; exact hc)
    exact ⟨s', h1, by rw [h2, chooseActiveBoard_truthy v first ht]⟩
  refine ⟨hfalsy, htruthy, ?_, ?_, ?_⟩
  · intro v hv ht hc
    refine ⟨_, fetchAndDisplayBoardsAndTasks_typeError R s first rest v hboards hv
      (by rw [chooseActiveBoard_truthy v first ht]; exact hc), rfl, ?_⟩
    exact chooseActiveBoard_truthy v first ht
  · intro h
    exact hfalsy _ (parseActiveBoard_absent _ h) rfl
  · intro b h
    cases b with
    | nil => exact hfalsy _ (parseActiveBoard_stringified _ [] h) rfl
    | cons c cs =>
      obtain ⟨s', h1, h2⟩ := htruthy _ (parseActiveBoard_stringified _ (c :: cs) h) rfl rfl
      exact ⟨s', h1, by simpa using h2⟩

/-- C3, amended, at a store without a preference: the active board is the first board. -/
theorem fetchAndDisplayBoardsAndTasks_activeBoard_fresh :
    boardsOf ((specRepo exampleStatuses).getTasks (pageOnLoad freshStore).localStorage)
      = [utf16 "A", utf16 "B"]
    ∧ ∃ s', fetchAndDisplayBoardsAndTasks (specRepo exampleStatuses) (pageOnLoad freshStore)
          = .ok s'
        ∧ s'.activeBoard = JsVal.str (utf16 "A") :=
  ⟨by decide,
    (fetchAndDisplayBoardsAndTasks_activeBoard (specRepo exampleStatuses) (pageOnLoad freshStore)
      (utf16 "A") [utf16 "B"] (by decide)).2.2.2.1 (by decide)⟩

/-- C5, on the code: text under `activeBoard` that is not JSON makes the load raise.  With
the text `Ghost` (no quotes) stored and tasks on two boards, `JSON.parse` throws a
`SyntaxError` and `fetchAndDisplayBoardsAndTasks` passes it to its caller; no active board
is set, the variable keeps its initial empty text. -/
theorem fetchAndDisplayBoardsAndTasks_raises :
    boardsOf ((specRepo exampleStatuses).getTasks corruptStore) = [utf16 "A", utf16 "B"]
    ∧ corruptStore.getItem "activeBoard" = some (utf16 "Ghost")
    ∧ ∃ thrown,
        fetchAndDisplayBoardsAndTasks (specRepo exampleStatuses) (pageOnLoad corruptStore)
          = .error thrown
        ∧ thrown.error = JsError.syntaxError
        ∧ textIs [] thrown.state.activeBoard = true := by
  have hb : boardsOf ((specRepo exampleStatuses).getTasks corruptStore)
      = [utf16 "A", utf16 "B"] := by decide
  have h := fetchAndDisplayBoardsAndTasks_error (specRepo exampleStatuses)
    (pageOnLoad corruptStore) (utf16 "A") [utf16 "B"] JsError.syntaxError hb (by rfl)
  exact ⟨hb, by decide, _, h, rfl, rfl⟩

/-- C5, amended: with a non-empty board projection, loading the board view completes exactly
when the text under `activeBoard` is JSON (an absent key counts as `null`) whose value is
falsy or can be converted to a string, in particular for an absent key and for every text
`JSON.stringify(b)` a board button stores.  For text that is not JSON the `SyntaxError` of
`JSON.parse` reaches the caller and `activeBoard` is not assigned; for a truthy value that
cannot be converted to a string the `TypeError` of the header assignment reaches it. -/
theorem fetchAndDisplayBoardsAndTasks_completes_iff (R : Repo) (s : State) (first : JsString)
    (rest : List JsString) (hboards : boardsOf (R.getTasks s.localStorage) = first :: rest) :
    ((∃ s', fetchAndDisplayBoardsAndTasks R s = .ok s')
        ↔ ∃ v, parseActiveBoard s.localStorage = .ok v
            ∧ (v.truthy = false ∨ v.toStringReturns = true))
    ∧ (∀ e, parseActiveBoard s.localStorage = .error e →
        e = JsError.syntaxError
        ∧ ∃ thrown, fetchAndDisplayBoardsAndTasks R s = .error thrown ∧ thrown.error = e
            ∧ thrown.state.activeBoard = s.activeBoard)
    ∧ (∀ v, parseActiveBoard s.localStorage = .ok v → v.truthy = true →
        v.toStringReturns = false →
        ∃ thrown, fetchAndDisplayBoardsAndTasks R s = .error thrown
          ∧ thrown.error = JsError.typeError)
    ∧ (s.localStorage.getItem "activeBoard" = Option.none →
        ∃ s', fetchAndDisplayBoardsAndTasks R s = .ok s')
    ∧ (∀ b, s.localStorage.getItem "activeBoard" = some (jsonStringify b) →
        ∃ s', fetchAndDisplayBoardsAndTasks R s = .ok s') := by
  have hok : ∀ v, parseActiveBoard s.localStorage = .ok v →
      (v.truthy = false ∨ v.toStringReturns = true) →
      ∃ s', fetchAndDisplayBoardsAndTasks R s = .ok s' := by
    intro v hv hcase
    have htext : (chooseActiveBoard v first).toStringReturns = true := by
      cases ht : v.truthy with
      | false => rw [chooseActiveBoard_falsy v first ht]; rfl
      | true =>
        rw [chooseActiveBoard_truthy v first ht]
        rcases hcase with h | h
        · rw [ht] at h; cases h
        · exact h
    obtain ⟨s', h1, _⟩ := fetchAndDisplayBoardsAndTasks_ok R s first rest v hboards hv htext
    exact ⟨s', h1⟩
  refine ⟨⟨?_, ?_⟩, ?_, ?_, ?_, ?_⟩
  · rintro ⟨s', hs'⟩
    cases hp : parseActiveBoard s.localStorage with
    | error e =>
      rw [fetchAndDisplayBoardsAndTasks_error R s first rest e hboards hp] at hs'
      cases hs'
    | ok v =>
      refine ⟨v, rfl, ?_⟩
      cases ht : v.truthy with
      | false => exact Or.inl rfl
      | true =>
        cases hc : v.toStringReturns with
        | true => exact Or.inr rfl
        | false =>
          rw [fetchAndDisplayBoardsAndTasks_typeError R s first rest v hboards hp
            (by rw [chooseActiveBoard_truthy v first ht]; exact hc)] at hs'
          cases hs'
  · rintro ⟨v, hv, hcase⟩
    exact hok v hv hcase
  · intro e he
    exact ⟨parseActiveBoard_error _ e he, _,
      fetchAndDisplayBoardsAndTasks_error R s first rest e hboards he, rfl, rfl⟩
  · intro v hv ht hc
    exact ⟨_, fetchAndDisplayBoardsAndTasks_typeError R s first rest v hboards hv
      (by rw [chooseActiveBoard_truthy v first ht]; exact hc), rfl⟩
  · intro h
    exact hok _ (parseActiveBoard_absent _ h) (Or.inl rfl)
  · intro b h
    exact hok _ (parseActiveBoard_stringified _ b h) (Or.inr rfl)

/-- C5, amended, at two stores: with the text `"Ghost"` stored the load completes; with the
JSON text of an object that has a `toString` member it stops with a `TypeError`. -/
theorem fetchAndDisplayBoardsAndTasks_completes_ghost :
    boardsOf ((specRepo exampleStatuses).getTasks (pageOnLoad ghostStore).localStorage)
      = [utf16 "A", utf16 "B"]
    ∧ (∃ s', fetchAndDisplayBoardsAndTasks (specRepo exampleStatuses) (pageOnLoad ghostStore)
          = .ok s')
    ∧ objectStore.getItem "activeBoard" = some (utf16 "\x7b\"toString\":1\x7d")
    ∧ ∃ thrown,
        fetchAndDisplayBoardsAndTasks (specRepo exampleStatuses) (pageOnLoad objectStore)
          = .error thrown
        ∧ thrown.error = JsError.typeError :=
  ⟨by decide,
    (fetchAndDisplayBoardsAndTasks_completes_iff (specRepo exampleStatuses)
      (pageOnLoad ghostStore) (utf16 "A") [utf16 "B"] (by decide)).2.2.2.2 (utf16 "Ghost")
      (by decide),
    by decide,
    (fetchAndDisplayBoardsAndTasks_completes_iff (specRepo exampleStatuses)
      (pageOnLoad objectStore) (utf16 "A") [utf16 "B"] (by decide)).2.2.1
      (JsVal.obj [(utf16 "toString", JsVal.num false 1 0)]) (by rfl) (by rfl) (by rfl)⟩

/-! ### `initializeData` -/

/-- C4, on the code: a `tasks` key that is present but holds the empty text is treated as
absent: `initializeData` overwrites it with the dataset and sets `showSideBar`. -/
theorem initializeData_overwrites_empty_text :
    emptyTasksStore.getItem "tasks" = some []
    ∧ (initializeData (utf16 "[]") emptyTasksStore).getItem "tasks" = some (utf16 "[]")
    ∧ emptyTasksStore.getItem "showSideBar" = Option.none
    ∧ (initializeData (utf16 "[]") emptyTasksStore).getItem "showSideBar"
        = some (utf16 "true") := by
  decide

/-- C4, amended: `initializeData` writes the `tasks` key (the serialized dataset) and
`showSideBar` = `"true"` exactly when the `tasks` key is absent or holds the empty text, and
changes no other key then; when the `tasks` key holds any non-empty text every key is left
unchanged, so with a non-empty serialized dataset a second run changes nothing. -/
theorem initializeData_writes_iff (seed : JsString) (st : Store) :
    ((st.getItem "tasks" = Option.none ∨ st.getItem "tasks" = some []) →
      initializeData seed st = (st.setItem "tasks" seed).setItem "showSideBar" (utf16 "true"))
    ∧ ((st.getItem "tasks" = Option.none ∨ st.getItem "tasks" = some []) →
      ∀ key, key ≠ "tasks" → key ≠ "showSideBar" →
        (initializeData seed st).getItem key = st.getItem key)
    ∧ (∀ text, st.getItem "tasks" = some text → text ≠ [] → initializeData seed st = st)
    ∧ (seed ≠ [] → initializeData seed (initializeData seed st) = initializeData seed st) := by
  have hmiss : (st.getItem "tasks" = Option.none ∨ st.getItem "tasks" = some []) →
      st.missing "tasks" = true := by
    rintro (h | h) <;> simp [Store.missing, h]
  have hkeep : ∀ (st : Store) (text : JsString), st.getItem "tasks" = some text → text ≠ [] →
      initializeData seed st = st := by
    intro st text h hne
    have : st.missing "tasks" = false := by
      cases text with
      | nil => exact absurd rfl hne
      | cons c cs => simp [Store.missing, h]
    simp [initializeData, this]
  refine ⟨?_, ?_, hkeep st, ?_⟩
  · intro h
    simp [initializeData, hmiss h]
  · intro h key h1 h2
    simp [initializeData, hmiss h, Store.setItem, Store.getItem, h1, h2]
  · intro hseed
    by_cases hm : st.missing "tasks" = true
    · apply hkeep _ seed _ hseed
      simp [initializeData, hm, Store.setItem, Store.getItem]
    · simp [initializeData, hm]

/-- C4, amended, at the empty store: the first run seeds both keys, the second changes
nothing. -/
theorem initializeData_first_run :
    initializeData (utf16 "[]") (storeOf [])
      = ((storeOf []).setItem "tasks" (utf16 "[]")).setItem "showSideBar" (utf16 "true")
    ∧ initializeData (utf16 "[]") (initializeData (utf16 "[]") (storeOf []))
      = initializeData (utf16 "[]") (storeOf []) :=
  ⟨(initializeData_writes_iff (utf16 "[]") (storeOf [])).1 (Or.inl (by decide)),
    (initializeData_writes_iff (utf16 "[]") (storeOf [])).2.2.2 (by decide)⟩

/-! ### The modal workflow -/

theorem addTask_of_none (R : Repo) (oracle : SelectorOracle) (now : Nat) (s : State)
    (h : (R.createNewTask s.localStorage (addTaskDraft now s)).2 = Option.none) :
    addTask R oracle now s
      = .ok { s with localStorage := (R.createNewTask s.localStorage (addTaskDraft now s)).1
                     calls := s.calls ++ [Call.createNewTask (addTaskDraft now s)] } := by
  simp only [addTask, h]

theorem addTask_of_error (R : Repo) (oracle : SelectorOracle) (now : Nat) (s : State)
    (newTask : Task) (e : JsError)
    (h : (R.createNewTask s.localStorage (addTaskDraft now s)).2 = some newTask)
    (hsel : querySelectorColumn oracle newTask.status s.columns = .error e) :
    addTask R oracle now s
      = .error
          { error := e
            state :=
              { s with localStorage := (R.createNewTask s.localStorage (addTaskDraft now s)).1
                       calls := s.calls ++ [Call.createNewTask (addTaskDraft now s)] } } := by
  simp only [addTask, h, addTaskToUI, hsel]

theorem addTask_of_ok (R : Repo) (oracle : SelectorOracle) (now : Nat) (s : State)
    (newTask : Task) (placement : Placement)
    (h : (R.createNewTask s.localStorage (addTaskDraft now s)).2 = some newTask)
    (hsel : querySelectorColumn oracle newTask.status s.columns = .ok placement) :
    addTask R oracle now s
      = .ok (refreshTasksUI R
          { s with
            localStorage := (R.createNewTask s.localStorage (addTaskDraft now s)).1
            calls := s.calls ++ [Call.createNewTask (addTaskDraft now s)]
            columns := placeTask newTask placement s.columns
            modalWindow := Display.none
            filterDiv := Display.none
            addForm := s.addFormDefault }) := by
  simp only [addTask, h, addTaskToUI, hsel]

theorem addTask_of_placed (R : Repo) (oracle : SelectorOracle) (now : Nat) (s : State)
    (newTask : Task) (placement : Placement)
    (h : (R.createNewTask s.localStorage (addTaskDraft now s)).2 = some newTask)
    (hsel : querySelectorColumn oracle newTask.status s.columns = .ok placement) :
    ∃ s', addTask R oracle now s = .ok s'
      ∧ s'.calls = s.calls ++ [Call.createNewTask (addTaskDraft now s), Call.getTasks]
      ∧ s'.modalWindow = Display.none
      ∧ s'.filterDiv = Display.none
      ∧ s'.addForm = s.addFormDefault
      ∧ s'.activeBoard = s.activeBoard
      ∧ s'.localStorage = (R.createNewTask s.localStorage (addTaskDraft now s)).1
      ∧ s'.columns
          = rebuildColumns (R.getTasks (R.createNewTask s.localStorage (addTaskDraft now s)).1)
              s.activeBoard s.columns
      ∧ ViewAgrees R s' := by
  have h0 := addTask_of_ok R oracle now s newTask placement h hsel
  have hcalls : (refreshTasksUI R
          { s with
            localStorage := (R.createNewTask s.localStorage (addTaskDraft now s)).1
            calls := s.calls ++ [Call.createNewTask (addTaskDraft now s)]
            columns := placeTask newTask placement s.columns
            modalWindow := Display.none
            filterDiv := Display.none
            addForm := s.addFormDefault }).calls
      = s.calls ++ [Call.createNewTask (addTaskDraft now s), Call.getTasks] := by
    simp [refreshTasksUI, filterAndDisplayTasksByBoard]
  exact ⟨_, h0, hcalls, rfl, rfl, rfl, rfl, rfl,
    rebuildColumns_placeTask _ _ _ _ _, viewAgrees_refreshTasksUI R _⟩

/-- C6, on the code: a created task does not always close the modal.  On a page with the
add modal open and the status `do"ne` selected, `createNewTask` of the specification's
repository returns the new task; the selector `addTaskToUI` builds from that status is
invalid, `querySelector` throws, and `addTask` stops right after the `createNewTask` call:
the modal and the overlay are still shown, the form still holds the input, the columns are
as before and no `getTasks()` call of a refresh was made. -/
theorem addTask_stops_on_invalid_selector :
    ((specRepo quoteStatuses).createNewTask quotePage.localStorage
        (addTaskDraft 5 quotePage)).2
      = some { id := 5, title := utf16 "Ship it", description := [], status := quoteStatus,
               board := some (utf16 "A") }
    ∧ (∀ oracle : SelectorOracle,
        querySelectorColumn oracle quoteStatus quotePage.columns
          = .error JsError.invalidSelector)
    ∧ ∃ thrown, addTask (specRepo quoteStatuses) unusedOracle 5 quotePage = .error thrown
        ∧ thrown.error = JsError.invalidSelector
        ∧ thrown.state.modalWindow = Display.block
        ∧ thrown.state.filterDiv = Display.block
        ∧ thrown.state.addForm
            = { title := utf16 "Ship it", description := [], status := quoteStatus }
        ∧ thrown.state.columns = quotePage.columns
        ∧ ((thrown.state.calls.drop quotePage.calls.length).any Call.isCreateNewTask) = true
        ∧ ((thrown.state.calls.drop quotePage.calls.length).any Call.isGetTasks) = false := by
  have hcreate : ((specRepo quoteStatuses).createNewTask quotePage.localStorage
        (addTaskDraft 5 quotePage)).2
      = some { id := 5, title := utf16 "Ship it", description := [], status := quoteStatus,
               board := some (utf16 "A") } := by decide
  have hsel : ∀ oracle : SelectorOracle,
      querySelectorColumn oracle quoteStatus quotePage.columns
        = .error JsError.invalidSelector := by
    intro oracle
    rfl
  refine ⟨hcreate, hsel, _,
    addTask_of_error (specRepo quoteStatuses) unusedOracle 5 quotePage _ _ hcreate
      (hsel unusedOracle), rfl, rfl, rfl, rfl, rfl, by decide, by decide⟩

/-- C6, amended: `addTask` calls `createNewTask` exactly once, with the add form's fields and
`board` = the current `activeBoard`.  When the call returns a falsy value it is the only
call made: the add modal and the overlay are left as they were, no element is added to a
column, the form is not reset and the columns are not rebuilt.  When it returns a task and
`querySelector` accepts the selector built from the task's status, as it does for every
status of plain characters, the add modal and the overlay are closed, the form is reset and
the columns are rebuilt from `getTasks()` for `activeBoard`.  When `querySelector` rejects
the selector, `addTask` stops with that error after the one call: modal, overlay, form and
columns are left as they were. -/
theorem addTask_createNewTask_once (R : Repo) (oracle : SelectorOracle) (now : Nat)
    (s : State) :
    (addTaskDraft now s).board = s.activeBoard
    ∧ (addTaskDraft now s).title = s.addForm.title
    ∧ (addTaskDraft now s).description = s.addForm.description
    ∧ (addTaskDraft now s).status = s.addForm.status
    ∧ ((R.createNewTask s.localStorage (addTaskDraft now s)).2 = Option.none →
        ∃ s', addTask R oracle now s = .ok s'
          ∧ s'.calls = s.calls ++ [Call.createNewTask (addTaskDraft now s)]
          ∧ s'.modalWindow = s.modalWindow
          ∧ s'.filterDiv = s.filterDiv
          ∧ s'.columns = s.columns
          ∧ s'.addForm = s.addForm
          ∧ s'.activeBoard = s.activeBoard)
    ∧ (∀ newTask placement,
        (R.createNewTask s.localStorage (addTaskDraft now s)).2 = some newTask →
        querySelectorColumn oracle newTask.status s.columns = .ok placement →
        ∃ s', addTask R oracle now s = .ok s'
          ∧ s'.calls = s.calls ++ [Call.createNewTask (addTaskDraft now s), Call.getTasks]
          ∧ s'.modalWindow = Display.none
          ∧ s'.filterDiv = Display.none
          ∧ s'.addForm = s.addFormDefault
          ∧ s'.activeBoard = s.activeBoard
          ∧ s'.columns
              = rebuildColumns
                  (R.getTasks (R.createNewTask s.localStorage (addTaskDraft now s)).1)
                  s.activeBoard s.columns
          ∧ ViewAgrees R s')
    ∧ (∀ newTask e,
        (R.createNewTask s.localStorage (addTaskDraft now s)).2 = some newTask →
        querySelectorColumn oracle newTask.status s.columns = .error e →
        ∃ thrown, addTask R oracle now s = .error thrown
          ∧ thrown.error = e
          ∧ thrown.state.calls = s.calls ++ [Call.createNewTask (addTaskDraft now s)]
          ∧ thrown.state.modalWindow = s.modalWindow
          ∧ thrown.state.filterDiv = s.filterDiv
          ∧ thrown.state.columns = s.columns
          ∧ thrown.state.addForm = s.addForm)
    ∧ (∀ newTask,
        (R.createNewTask s.localStorage (addTaskDraft now s)).2 = some newTask →
        newTask.status.all plainInSelector = true →
        ∃ s', addTask R oracle now s = .ok s'
          ∧ s'.modalWindow = Display.none
          ∧ s'.filterDiv = Display.none
          ∧ ViewAgrees R s') := by
  refine ⟨rfl, rfl, rfl, rfl, ?_, ?_, ?_, ?_⟩
  · intro h
    exact ⟨_, addTask_of_none R oracle now s h, rfl, rfl, rfl, rfl, rfl, rfl⟩
  · intro newTask placement h hsel
    obtain ⟨s', h0, h1, h2, h3, h4, h5, _, h7, h8⟩ :=
      addTask_of_placed R oracle now s newTask placement h hsel
    exact ⟨s', h0, h1, h2, h3, h4, h5, h7, h8⟩
  · intro newTask e h hsel
    exact ⟨_, addTask_of_error R oracle now s newTask e h hsel, rfl, rfl, rfl, rfl, rfl, rfl⟩
  · intro newTask h hplain
    obtain ⟨placement, hsel⟩ := querySelectorColumn_plain oracle newTask.status s.columns hplain
    obtain ⟨s', h0, _, h2, h3, _, _, _, _, h8⟩ :=
      addTask_of_placed R oracle now s newTask placement h hsel
    exact ⟨s', h0, h2, h3, h8⟩

/-- C7: after `openEditTaskModal(task)`, whatever is typed into the edit form and whichever
task was opened before, the save command calls `patchTask` exactly once, with `task.id`
and the title, description and status of the edit form (and `board` = `activeBoard`), then
hides the edit modal and rebuilds the columns from `getTasks()` for `activeBoard`, for
every behaviour of `patchTask`. -/
theorem saveChangesClick_after_open (R : Repo) (s : State) (earlier task : Task) (form : Form) :
    (saveChangesClick R
        { openEditTaskModal task (openEditTaskModal earlier s) with editForm := form }).calls
      = s.calls
        ++ [Call.patchTask task.id
              { title := form.title, description := form.description, status := form.status,
                board := s.activeBoard },
            Call.getTasks]
    ∧ (saveChangesClick R { openEditTaskModal task s with editForm := form }).calls
      = s.calls
        ++ [Call.patchTask task.id
              { title := form.title, description := form.description, status := form.status,
                board := s.activeBoard },
            Call.getTasks]
    ∧ (openEditTaskModal task s).editForm
      = { title := task.title, description := task.description, status := task.status }
    ∧ (openEditTaskModal task s).editTaskModal = Display.block
    ∧ (saveChangesClick R { openEditTaskModal task s with editForm := form }).editTaskModal
      = Display.none
    ∧ (saveChangesClick R { openEditTaskModal task s with editForm := form }).localStorage
      = R.patchTask s.localStorage task.id
          { title := form.title, description := form.description, status := form.status,
            board := s.activeBoard }
    ∧ (saveChangesClick R { openEditTaskModal task s with editForm := form }).activeBoard
      = s.activeBoard
    ∧ (saveChangesClick R { openEditTaskModal task s with editForm := form }).columns
      = rebuildColumns
          (R.getTasks (R.patchTask s.localStorage task.id
            { title := form.title, description := form.description, status := form.status,
              board := s.activeBoard }))
          s.activeBoard s.columns
    ∧ ViewAgrees R (saveChangesClick R { openEditTaskModal task s with editForm := form }) := by
  refine ⟨?_, ?_, rfl, rfl, rfl, rfl, rfl, rfl, ?_⟩
  · simp [saveChangesClick, openEditTaskModal, saveTaskChanges, refreshTasksUI,
      filterAndDisplayTasksByBoard, updatedTaskOf]
  · simp [saveChangesClick, openEditTaskModal, saveTaskChanges, refreshTasksUI,
      filterAndDisplayTasksByBoard, updatedTaskOf]
  · exact viewAgrees_refreshTasksUI R _

/-- C8: after `openEditTaskModal(task)` the delete command calls `deleteTask` exactly once,
with `task.id`, calls neither `patchTask` nor `createNewTask`, hides the edit modal and
rebuilds the columns from `getTasks()` for `activeBoard`. -/
theorem deleteButtonClick_after_open (R : Repo) (s : State) (earlier task : Task) (form : Form) :
    (deleteButtonClick R
        { openEditTaskModal task (openEditTaskModal earlier s) with editForm := form }).calls
      = s.calls ++ [Call.deleteTask task.id, Call.getTasks]
    ∧ (deleteButtonClick R { openEditTaskModal task s with editForm := form }).calls
      = s.calls ++ [Call.deleteTask task.id, Call.getTasks]
    ∧ (deleteButtonClick R { openEditTaskModal task s with editForm := form }).editTaskModal
      = Display.none
    ∧ (deleteButtonClick R { openEditTaskModal task s with editForm := form }).localStorage
      = R.deleteTask s.localStorage task.id
    ∧ (deleteButtonClick R { openEditTaskModal task s with editForm := form }).activeBoard
      = s.activeBoard
    ∧ (deleteButtonClick R { openEditTaskModal task s with editForm := form }).columns
      = rebuildColumns (R.getTasks (R.deleteTask s.localStorage task.id)) s.activeBoard s.columns
    ∧ ViewAgrees R (deleteButtonClick R { openEditTaskModal task s with editForm := form }) := by
  refine ⟨?_, ?_, rfl, rfl, rfl, rfl, ?_⟩
  · simp [deleteButtonClick, openEditTaskModal, deleteTaskClick, refreshTasksUI,
      filterAndDisplayTasksByBoard]
  · simp [deleteButtonClick, openEditTaskModal, deleteTaskClick, refreshTasksUI,
      filterAndDisplayTasksByBoard]
  · exact viewAgrees_refreshTasksUI R _

/-! ### Selecting a board -/

/-- C9: the click handler of the button of a board `b` of the projection sets `activeBoard`
to `b` and stores `JSON.stringify(b)` under `activeBoard`; `JSON.parse` of that text is `b`,
and a later load from that store with the task collection unchanged sets `activeBoard` to
`b` again. -/
theorem boardButtonClick_persists (R : Repo) (s : State) (b : JsString)
    (hb : b ∈ boardsOf (R.getTasks s.localStorage)) :
    (boardButtonClick R b s).activeBoard = JsVal.str b
    ∧ (boardButtonClick R b s).localStorage
        = s.localStorage.setItem "activeBoard" (jsonStringify b)
    ∧ (boardButtonClick R b s).localStorage.getItem "activeBoard" = some (jsonStringify b)
    ∧ jsonParse (jsonStringify b) = .ok (JsVal.str b)
    ∧ (R.getTasks (boardButtonClick R b s).localStorage = R.getTasks s.localStorage →
        ∀ later : State, later.localStorage = (boardButtonClick R b s).localStorage →
          ∃ s', fetchAndDisplayBoardsAndTasks R later = .ok s'
            ∧ s'.activeBoard = JsVal.str b) := by
  have hstore : (boardButtonClick R b s).localStorage
      = s.localStorage.setItem "activeBoard" (jsonStringify b) := rfl
  have hget : (boardButtonClick R b s).localStorage.getItem "activeBoard"
      = some (jsonStringify b) := by
    rw [hstore]
    simp [Store.setItem, Store.getItem]
  refine ⟨rfl, hstore, hget, jsonParse_jsonStringify b, ?_⟩
  intro hsame later hlater
  have hne : b ≠ [] := ((boardsOf_nonempty_mem _ b).mp hb).1
  have hb' : b ∈ boardsOf (R.getTasks later.localStorage) := by
    rw [hlater, hsame]; exact hb
  obtain ⟨first, rest, hboards⟩ : ∃ first rest,
      boardsOf (R.getTasks later.localStorage) = first :: rest := by
    cases hl : boardsOf (R.getTasks later.localStorage) with
    | nil => rw [hl] at hb'; cases hb'
    | cons x xs => exact ⟨x, xs, rfl⟩
  have hchoose : chooseActiveBoard (JsVal.str b) first = JsVal.str b := by
    cases b with
    | nil => exact absurd rfl hne
    | cons c cs => simp [chooseActiveBoard, JsVal.truthy]
  obtain ⟨s', h1, h2, _⟩ := fetchAndDisplayBoardsAndTasks_ok R later first rest (JsVal.str b)
    hboards (parseActiveBoard_stringified _ b (by rw [hlater]; exact hget))
    (by rw [hchoose]; rfl)
  exact ⟨s', h1, by rw [h2, hchoose]⟩

theorem specGetTasks_setItem (st : Store) (key : String) (value : JsString)
    (h : key ≠ "tasks") : specGetTasks (st.setItem key value) = specGetTasks st := by
  have : (st.setItem key value).getItem "tasks" = st.getItem "tasks" := by
    simp [Store.setItem, Store.getItem, Ne.symm h]
  simp only [specGetTasks, this]

theorem specCreateNewTask_none (knownColumns : List JsString) (st : Store) (draft : TaskDraft)
    (h : (specCreateNewTask knownColumns st draft).2 = Option.none) :
    (specCreateNewTask knownColumns st draft).1 = st := by
  unfold specCreateNewTask at h ⊢
  split_ifs at h ⊢ with hbad
  · rfl

/-- C9 at the stored tasks of boards `A` and `B`: clicking the button of `B` makes `B` the
active board, and a load on a fresh page with the store it leaves resolves to `B`. -/
theorem boardButtonClick_persists_example :
    utf16 "B" ∈ boardsOf ((specRepo exampleStatuses).getTasks (pageOnLoad freshStore).localStorage)
    ∧ (boardButtonClick (specRepo exampleStatuses) (utf16 "B") (pageOnLoad freshStore)).activeBoard
        = JsVal.str (utf16 "B")
    ∧ ∃ s', fetchAndDisplayBoardsAndTasks (specRepo exampleStatuses)
          (pageOnLoad (boardButtonClick (specRepo exampleStatuses) (utf16 "B")
            (pageOnLoad freshStore)).localStorage) = .ok s'
        ∧ s'.activeBoard = JsVal.str (utf16 "B") :=
  ⟨by decide,
    (boardButtonClick_persists (specRepo exampleStatuses) (pageOnLoad freshStore) (utf16 "B")
      (by decide)).1,
    (boardButtonClick_persists (specRepo exampleStatuses) (pageOnLoad freshStore) (utf16 "B")
      (by decide)).2.2.2.2
      (specGetTasks_setItem freshStore "activeBoard" (jsonStringify (utf16 "B")) (by decide))
      _ rfl⟩

/-- C6, amended, at two submissions with the repository of the specification: an empty
title is refused and the handler makes the one call and nothing else; with a title typed
and the plain status `done` the task is created, the modal is closed and the columns are
rebuilt. -/
theorem addTask_createNewTask_once_example :
    (∃ s', addTask (specRepo exampleStatuses) unusedOracle 5 emptyBoardPage = .ok s'
      ∧ s'.calls = emptyBoardPage.calls ++ [Call.createNewTask (addTaskDraft 5 emptyBoardPage)]
      ∧ s'.modalWindow = emptyBoardPage.modalWindow)
    ∧ (∃ s', addTask (specRepo exampleStatuses) unusedOracle 5 typedPage = .ok s'
      ∧ s'.modalWindow = Display.none
      ∧ s'.filterDiv = Display.none
      ∧ ViewAgrees (specRepo exampleStatuses) s') :=
  ⟨(fun ⟨s', h0, h1, h2, _⟩ => ⟨s', h0, h1, h2⟩)
      ((addTask_createNewTask_once (specRepo exampleStatuses) unusedOracle 5
        emptyBoardPage).2.2.2.2.1 (by decide)),
    (addTask_createNewTask_once (specRepo exampleStatuses) unusedOracle 5
        typedPage).2.2.2.2.2.2.2
      { id := 5, title := utf16 "Ship it", description := [], status := utf16 "done",
        board := some (utf16 "A") } (by decide) (by decide)⟩

/-! ### View/store agreement -/

/-- C10, on the code: the view does not agree with the store after every command, and a
handler that calls `createNewTask` need not rebuild the columns.  Submitting `Ship it` on
the page without boards stores a task whose board is the empty text.  After a reload the
board projection is empty, so the load rebuilds nothing: `activeBoard` is the empty text,
the stored task has that board, and no column shows it; cancelling the add modal completes
and the view still disagrees with the store.  And on the page loaded from a store without
tasks, a submit with an empty title makes `createNewTask` report failure: `addTask` returns
having called `createNewTask` and nothing else, no `getTasks()` call is made and the columns
are the ones of the markup, still without a tasks container. -/
theorem view_disagrees_without_rebuild :
    (((specRepo exampleStatuses).createNewTask typedEmptyPage.localStorage
          (addTaskDraft 5 typedEmptyPage)).2 = some blankBoardTask
      ∧ ((specRepo exampleStatuses).createNewTask typedEmptyPage.localStorage
          (addTaskDraft 5 typedEmptyPage)).1.getItem "tasks" = blankBoardStore.getItem "tasks")
    ∧ (fetchAndDisplayBoardsAndTasks (specRepo exampleStatuses) (pageOnLoad blankBoardStore)
          = .ok reloadedPage
      ∧ (specRepo exampleStatuses).getTasks reloadedPage.localStorage = [blankBoardTask]
      ∧ boardIs blankBoardTask.board reloadedPage.activeBoard = true
      ∧ reloadedPage.columns.map shownTasks = [[], [], []]
      ∧ ¬ ViewAgrees (specRepo exampleStatuses) reloadedPage
      ∧ ∃ s', step (specRepo exampleStatuses) unusedOracle reloadedPage Command.cancelAdd
            = .ok s'
          ∧ ¬ ViewAgrees (specRepo exampleStatuses) s')
    ∧ (fetchAndDisplayBoardsAndTasks (specRepo exampleStatuses) (pageOnLoad noTasksStore)
          = .ok emptyBoardPage
      ∧ ((specRepo exampleStatuses).createNewTask emptyBoardPage.localStorage
          (addTaskDraft 5 emptyBoardPage)).2 = Option.none
      ∧ ∃ s', addTask (specRepo exampleStatuses) unusedOracle 5 emptyBoardPage = .ok s'
          ∧ ((s'.calls.drop emptyBoardPage.calls.length).any Call.isCreateNewTask) = true
          ∧ ((s'.calls.drop emptyBoardPage.calls.length).any Call.isGetTasks) = false
          ∧ s'.columns
              = exampleStatuses.map
                  (fun status => { status := status, tasksContainer := Option.none })
          ∧ s'.columns
              ≠ rebuildColumns ((specRepo exampleStatuses).getTasks s'.localStorage)
                  s'.activeBoard s'.columns) := by
  refine ⟨⟨by decide, by decide⟩, ⟨by rfl, by decide, by decide, by decide, by decide, ?_⟩,
    ⟨by rfl, by decide, ?_⟩⟩
  · refine ⟨_, rfl, ?_⟩
    decide
  · refine ⟨_, addTask_of_none (specRepo exampleStatuses) unusedOracle 5 emptyBoardPage
      (by decide), by decide, by decide, by decide, by decide⟩

theorem fetchAndDisplayBoardsAndTasks_viewAgrees (R : Repo) (s s' : State) (first : JsString)
    (rest : List JsString) (hboards : boardsOf (R.getTasks s.localStorage) = first :: rest)
    (h : fetchAndDisplayBoardsAndTasks R s = .ok s') : ViewAgrees R s' := by
  cases hp : parseActiveBoard s.localStorage with
  | error e =>
    rw [fetchAndDisplayBoardsAndTasks_error R s first rest e hboards hp] at h
    cases h
  | ok v =>
    cases hc : (chooseActiveBoard v first).toStringReturns with
    | false =>
      rw [fetchAndDisplayBoardsAndTasks_typeError R s first rest v hboards hp hc] at h
      cases h
    | true =>
      obtain ⟨s'', h1, _, _, h4⟩ :=
        fetchAndDisplayBoardsAndTasks_ok R s first rest v hboards hp hc
      rw [h1] at h
      cases h
      exact h4

/-- C10, amended: for a repository whose `getTasks` reads only the `tasks` key and whose
failed `createNewTask` leaves the collection unchanged, view/store agreement is preserved
by every command that completes.  It is established, whatever the columns showed before,
by a load with a non-empty board projection, by a board selection, by a save or a delete
from the edit modal and by a submit that completes after `createNewTask` returned a task,
because those handlers rebuild the columns from `getTasks()` for the active board before
they return.  A load with an empty board projection and a submit whose `createNewTask`
reports failure rebuild nothing and leave the columns as they were. -/
theorem viewAgrees_step (R : Repo)
    (htasks : ∀ (st : Store) (key : String) (value : JsString), key ≠ "tasks" →
      R.getTasks (st.setItem key value) = R.getTasks st)
    (hfail : ∀ (st : Store) (draft : TaskDraft), (R.createNewTask st draft).2 = Option.none →
      R.getTasks (R.createNewTask st draft).1 = R.getTasks st)
    (oracle : SelectorOracle) (s : State) :
    (∀ command s', step R oracle s command = .ok s' → ViewAgrees R s → ViewAgrees R s')
    ∧ (∀ first rest s', boardsOf (R.getTasks s.localStorage) = first :: rest →
        fetchAndDisplayBoardsAndTasks R s = .ok s' → ViewAgrees R s')
    ∧ (boardsOf (R.getTasks s.localStorage) = [] →
        ∃ s', fetchAndDisplayBoardsAndTasks R s = .ok s'
          ∧ s'.columns = s.columns ∧ s'.activeBoard = s.activeBoard
          ∧ s'.localStorage = s.localStorage)
    ∧ (∀ board, board ∈ s.boardButtons.map (fun btn => btn.textContent) →
        ∃ s', step R oracle s (Command.selectBoard board) = .ok s'
          ∧ ViewAgrees R s' ∧ s'.activeBoard = JsVal.str board)
    ∧ (∀ taskId, s.saveChangesOnclick = some taskId →
        ∃ s', step R oracle s Command.saveEdit = .ok s' ∧ ViewAgrees R s')
    ∧ (∀ taskId, s.deleteTaskOnclick = some taskId →
        ∃ s', step R oracle s Command.deleteEdit = .ok s' ∧ ViewAgrees R s')
    ∧ (∀ now newTask s',
        (R.createNewTask s.localStorage (addTaskDraft now s)).2 = some newTask →
        step R oracle s (Command.submitAdd now) = .ok s' → ViewAgrees R s')
    ∧ (∀ now, (R.createNewTask s.localStorage (addTaskDraft now s)).2 = Option.none →
        ∃ s', step R oracle s (Command.submitAdd now) = .ok s'
          ∧ s'.columns = s.columns
          ∧ s'.calls = s.calls ++ [Call.createNewTask (addTaskDraft now s)]) := by
  have hselect : ∀ board, ViewAgrees R (boardButtonClick R board s) := by
    intro board column hcolumn
    have hstore : (boardButtonClick R board s).localStorage
        = s.localStorage.setItem "activeBoard" (jsonStringify board) := rfl
    rw [hstore, htasks _ _ _ (by decide)]
    simp only [boardButtonClick, styleActiveBoard, filterAndDisplayTasksByBoard, rebuildColumns,
      List.mem_map] at hcolumn
    obtain ⟨c, _, rfl⟩ := hcolumn
    rfl
  have hsome : ∀ now newTask s',
      (R.createNewTask s.localStorage (addTaskDraft now s)).2 = some newTask →
      addTask R oracle now s = .ok s' → ViewAgrees R s' := by
    intro now newTask s' hr h
    cases hsel : querySelectorColumn oracle newTask.status s.columns with
    | error e =>
      rw [addTask_of_error R oracle now s newTask e hr hsel] at h
      cases h
    | ok placement =>
      obtain ⟨s'', h0, _, _, _, _, _, _, _, h8⟩ :=
        addTask_of_placed R oracle now s newTask placement hr hsel
      rw [h0] at h
      cases h
      exact h8
  have hadd : ∀ now s', addTask R oracle now s = .ok s' → ViewAgrees R s → ViewAgrees R s' := by
    intro now s' h hv
    cases hr : (R.createNewTask s.localStorage (addTaskDraft now s)).2 with
    | none =>
      rw [addTask_of_none R oracle now s hr] at h
      cases h
      exact viewAgrees_of_same R s _ hv rfl rfl (hfail _ _ hr)
    | some newTask => exact hsome now newTask s' hr h
  refine ⟨?_, ?_, ?_, ?_, ?_, ?_, ?_, ?_⟩
  · intro command s' hstep h
    cases command with
    | selectBoard board =>
      simp only [step] at hstep
      split_ifs at hstep
      · cases hstep; exact hselect board
      · cases hstep; exact h
    | openAdd => cases hstep; exact viewAgrees_of_same R s _ h rfl rfl rfl
    | typeAdd form => cases hstep; exact viewAgrees_of_same R s _ h rfl rfl rfl
    | submitAdd now => exact hadd now s' hstep h
    | cancelAdd => cases hstep; exact viewAgrees_of_same R s _ h rfl rfl rfl
    | clickOverlay => cases hstep; exact viewAgrees_of_same R s _ h rfl rfl rfl
    | openEdit task =>
      simp only [step] at hstep
      split_ifs at hstep
      · cases hstep; exact viewAgrees_of_same R s _ h rfl rfl rfl
      · cases hstep; exact h
    | typeEdit form => cases hstep; exact viewAgrees_of_same R s _ h rfl rfl rfl
    | saveEdit =>
      simp only [step, saveChangesClick] at hstep
      cases hs : s.saveChangesOnclick with
      | none => rw [hs] at hstep; cases hstep; exact h
      | some taskId => rw [hs] at hstep; cases hstep; exact viewAgrees_refreshTasksUI R _
    | deleteEdit =>
      simp only [step, deleteButtonClick] at hstep
      cases hs : s.deleteTaskOnclick with
      | none => rw [hs] at hstep; cases hstep; exact h
      | some taskId => rw [hs] at hstep; cases hstep; exact viewAgrees_refreshTasksUI R _
    | cancelEdit => cases hstep; exact viewAgrees_of_same R s _ h rfl rfl rfl
    | hideSidebar =>
      cases hstep
      exact viewAgrees_of_same R s _ h rfl rfl (htasks _ _ _ (by decide))
    | showSidebar =>
      cases hstep
      exact viewAgrees_of_same R s _ h rfl rfl (htasks _ _ _ (by decide))
    | switchTheme =>
      cases hstep
      exact viewAgrees_of_same R s _ h rfl rfl (htasks _ _ _ (by decide))
  · intro first rest s' hboards h
    exact fetchAndDisplayBoardsAndTasks_viewAgrees R s s' first rest hboards h
  · intro hboards
    have h : fetchAndDisplayBoardsAndTasks R s
        = .ok (displayBoards [] { s with calls := s.calls ++ [Call.getTasks] }) := by
      simp only [fetchAndDisplayBoardsAndTasks, hboards]
    exact ⟨_, h, rfl, rfl, rfl⟩
  · intro board hboard
    refine ⟨_, ?_, hselect board, rfl⟩
    simp only [step, if_pos hboard]
  · intro taskId h
    refine ⟨_, rfl, ?_⟩
    simp only [saveChangesClick, h]
    exact viewAgrees_refreshTasksUI R _
  · intro taskId h
    refine ⟨_, rfl, ?_⟩
    simp only [deleteButtonClick, h]
    exact viewAgrees_refreshTasksUI R _
  · intro now newTask s' hr h
    exact hsome now newTask s' hr h
  · intro now h
    exact ⟨_, addTask_of_none R oracle now s h, rfl, rfl⟩

/-- C10, amended, with the repository of the specification: on the page showing board `A`
with a title typed into the add form, the view agrees with the store before the submit and
after it. -/
theorem viewAgrees_step_example :
    ViewAgrees (specRepo exampleStatuses) typedPage
    ∧ ∃ s', step (specRepo exampleStatuses) unusedOracle typedPage (Command.submitAdd 5)
          = .ok s'
        ∧ ViewAgrees (specRepo exampleStatuses) s' :=
  have hview : ViewAgrees (specRepo exampleStatuses) typedPage :=
    viewAgrees_of_same _ _ _ (viewAgrees_refreshTasksUI (specRepo exampleStatuses)
      { pageOnLoad freshStore with activeBoard := JsVal.str (utf16 "A") }) rfl rfl rfl
  have hplaced := addTask_of_placed (specRepo exampleStatuses) unusedOracle 5 typedPage
    { id := 5, title := utf16 "Ship it", description := [], status := utf16 "done",
      board := some (utf16 "A") } (Placement.column 2) (by decide) (by rfl)
  ⟨hview,
    hplaced.elim fun s' hs' =>
      ⟨s', hs'.1,
        (viewAgrees_step (specRepo exampleStatuses)
          (fun st key value h => specGetTasks_setItem st key value h)
          (fun st draft h => by
            show specGetTasks (specCreateNewTask exampleStatuses st draft).1 = specGetTasks st
            rw [specCreateNewTask_none exampleStatuses st draft h])
          unusedOracle typedPage).1 (Command.submitAdd 5) s' hs'.1 hview⟩⟩

end TaskBoard
